import Mathlib

/-!
# Verification of the `rtconf` discovery/correlation/binding core

This file gives a shallow embedding, in Lean 4, of the algorithmic core of the
`rtconf` Python package (`rtconf/tools.py`, `rtconf/irqs.py`, `rtconf/cset.py`,
`rtconf/kthread.py`, `rtconf/pcidevices.py`, `rtconf/meta_obj.py`,
`rtconf/functions.py`) and proves or refutes the specified properties of that
core.

Modelling conventions, used throughout:

* Python strings are modelled as `List Char`; Python string operations
  (`split`, `replace`, `startswith`, lexicographic `<`, f-string formatting of
  integers) are embedded as executable list functions below.
* Python `int` is modelled as `Int` (or `Nat` where the source guarantees
  non-negativity, e.g. bitmasks); `float` quantities (timestamps, rates) are
  modelled as `ℚ` with exact arithmetic.
* Fallible code (Python `assert`, `raise`, unpacking errors, `int()` parse
  errors, `IndexError`) is modelled with `Option`: `none` is an escaped
  exception.
* Kernel state that the Python code reads back (procfs affinity files,
  `os.sched_getaffinity`, `os.kill` probes) is passed in explicitly as oracle
  arguments; kernel-facing writes are recorded as explicit action values so
  that theorems can speak about which kernel operations were performed.
* Module-level constants read at import time (`tools.CPU_COUNT`,
  `tools.NUMA_CPULIST`) are passed as explicit parameters.
* The `root_decorator` privilege guard is not modelled: every claim concerns
  runs in the elevated context where the guard passes.
-/

/-! ## Decimal digit codec

Embeds Python's integer formatting (`f'{n}'` / `str(n)`) and parsing
(`int(token)`) for the token strings used by the range-notation codec. -/

/-- The decimal digit character for `d < 10` (Python `str` of a one-digit int). -/
def digitChar : Nat → Char
  | 0 => '0'
  | 1 => '1'
  | 2 => '2'
  | 3 => '3'
  | 4 => '4'
  | 5 => '5'
  | 6 => '6'
  | 7 => '7'
  | 8 => '8'
  | _ => '9'

/-- Inverse of `digitChar`: the value of a decimal digit character, else `none`. -/
def charDigit? (c : Char) : Option Nat :=
  if c = '0' then some 0
  else if c = '1' then some 1
  else if c = '2' then some 2
  else if c = '3' then some 3
  else if c = '4' then some 4
  else if c = '5' then some 5
  else if c = '6' then some 6
  else if c = '7' then some 7
  else if c = '8' then some 8
  else if c = '9' then some 9
  else none

/-- Fuel-driven digit loop (structural recursion so that the kernel can
evaluate it; the fuel is always sufficient when it starts at `n`). -/
def natDigitsRevGo : Nat → Nat → List Char
  | 0, n => [digitChar n]
  | fuel + 1, n =>
    if n < 10 then [digitChar n]
    else digitChar (n % 10) :: natDigitsRevGo fuel (n / 10)

/-- Little-endian decimal digits of a natural number (always nonempty). -/
def natDigitsRev (n : Nat) : List Char :=
  natDigitsRevGo n n

theorem natDigitsRevGo_fuel :
    ∀ (fuel₁ fuel₂ n : Nat), n ≤ fuel₁ → n ≤ fuel₂ →
      natDigitsRevGo fuel₁ n = natDigitsRevGo fuel₂ n := by
  intro fuel₁
  induction fuel₁ with
  | zero =>
    intro fuel₂ n h1 _
    interval_cases n
    cases fuel₂ <;> simp [natDigitsRevGo]
  | succ f ih =>
    intro fuel₂ n h1 h2
    cases fuel₂ with
    | zero =>
      interval_cases n
      simp [natDigitsRevGo]
    | succ f2 =>
      simp only [natDigitsRevGo]
      by_cases h : n < 10
      · simp [h]
      · rw [if_neg h, if_neg h,
          ih f2 (n / 10) (by omega) (by omega)]

/-- The recursion equation of `natDigitsRev`. -/
theorem natDigitsRev_eq (n : Nat) :
    natDigitsRev n =
      if n < 10 then [digitChar n]
      else digitChar (n % 10) :: natDigitsRev (n / 10) := by
  unfold natDigitsRev
  cases hn : n with
  | zero => simp [natDigitsRevGo]
  | succ m =>
    simp only [natDigitsRevGo]
    by_cases h : m + 1 < 10
    · simp [h]
    · rw [if_neg h, if_neg h,
        natDigitsRevGo_fuel m ((m + 1) / 10) ((m + 1) / 10) (by omega) (by omega)]

/-- Python `str(n)` for a natural number: most-significant digit first. -/
def natRepr (n : Nat) : List Char :=
  (natDigitsRev n).reverse

/-- Python `str(i)` / f-string formatting for an `int`. -/
def intRepr (i : Int) : List Char :=
  if i < 0 then '-' :: natRepr (-i).toNat else natRepr i.toNat

/-- Accumulator loop of decimal parsing: consume digits MSB-first. -/
def parseNatAux : Nat → List Char → Option Nat
  | acc, [] => some acc
  | acc, c :: cs =>
    match charDigit? c with
    | some d => parseNatAux (10 * acc + d) cs
    | none => none

/-- Python `int(token)` on a token made of decimal digits only
(`none` models the `ValueError` on an empty or non-digit string). -/
def parseNat : List Char → Option Nat
  | [] => none
  | s => parseNatAux 0 s

/-- Python `int(token)` allowing one leading minus sign. -/
def parseInt (s : List Char) : Option Int :=
  match s with
  | '-' :: rest => (parseNat rest).map (fun n => -(n : Int))
  | _ => (parseNat s).map (fun n => (n : Int))

theorem charDigit?_digitChar {d : Nat} (h : d < 10) :
    charDigit? (digitChar d) = some d := by
  interval_cases d <;> rfl

theorem digitChar_ne_dash {d : Nat} : digitChar d ≠ '-' := by
  unfold digitChar
  split <;> decide

theorem digitChar_ne_comma {d : Nat} : digitChar d ≠ ',' := by
  unfold digitChar
  split <;> decide

theorem natDigitsRev_ne_nil (n : Nat) : natDigitsRev n ≠ [] := by
  rw [natDigitsRev_eq]
  split <;> simp

theorem natRepr_ne_nil (n : Nat) : natRepr n ≠ [] := by
  unfold natRepr
  simpa using natDigitsRev_ne_nil n

theorem mem_natDigitsRev (n : Nat) :
    ∀ c ∈ natDigitsRev n, ∃ d, d < 10 ∧ c = digitChar d := by
  induction n using Nat.strong_induction_on with
  | _ n ih =>
    intro c hc
    rw [natDigitsRev_eq] at hc
    split at hc
    · next h =>
      simp only [List.mem_singleton] at hc
      exact ⟨n, h, hc⟩
    · next h =>
      rcases List.mem_cons.mp hc with h1 | h2
      · exact ⟨n % 10, Nat.mod_lt _ (by omega), h1⟩
      · exact ih (n / 10) (Nat.div_lt_self (by omega) (by omega)) c h2

theorem mem_natRepr (n : Nat) :
    ∀ c ∈ natRepr n, c ≠ '-' ∧ c ≠ ',' := by
  intro c hc
  unfold natRepr at hc
  rw [List.mem_reverse] at hc
  obtain ⟨d, _, rfl⟩ := mem_natDigitsRev n c hc
  exact ⟨digitChar_ne_dash, digitChar_ne_comma⟩

theorem parseNatAux_append (acc : Nat) (xs ys : List Char) :
    parseNatAux acc (xs ++ ys) =
      match parseNatAux acc xs with
      | some a => parseNatAux a ys
      | none => none := by
  induction xs generalizing acc with
  | nil => simp [parseNatAux]
  | cons c cs ih =>
    simp only [List.cons_append, parseNatAux]
    cases charDigit? c with
    | some d => exact ih _
    | none => rfl

theorem natRepr_step {n : Nat} (h : ¬ n < 10) :
    natRepr n = natRepr (n / 10) ++ [digitChar (n % 10)] := by
  unfold natRepr
  conv_lhs => rw [natDigitsRev_eq]
  rw [if_neg h]
  simp

theorem parseNatAux_natRepr (n : Nat) :
    ∀ acc, parseNatAux acc (natRepr n) =
      some (acc * 10 ^ (natRepr n).length + n) := by
  induction n using Nat.strong_induction_on with
  | _ n ih =>
    intro acc
    by_cases h : n < 10
    · have hrepr : natRepr n = [digitChar n] := by
        unfold natRepr
        rw [natDigitsRev_eq, if_pos h]
        rfl
      rw [hrepr]
      simp [parseNatAux, charDigit?_digitChar h]
      omega
    · rw [natRepr_step h, parseNatAux_append]
      rw [ih (n / 10) (Nat.div_lt_self (by omega) (by omega)) acc]
      simp [parseNatAux, charDigit?_digitChar (Nat.mod_lt n (by omega))]
      have key : ∀ A : Nat, 10 * (A + n / 10) + n % 10 = A * 10 + n := fun A => by omega
      rw [pow_succ, ← Nat.mul_assoc]
      exact key _

theorem parseNat_natRepr (n : Nat) : parseNat (natRepr n) = some n := by
  have hne := natRepr_ne_nil n
  have := parseNatAux_natRepr n 0
  unfold parseNat
  cases hr : natRepr n with
  | nil => exact absurd hr hne
  | cons c cs =>
    rw [hr] at this
    simpa using this

theorem intRepr_ofNat (n : Nat) : intRepr (n : Int) = natRepr n := by
  unfold intRepr
  rw [if_neg (by omega)]
  norm_num

theorem mem_intRepr_nonneg {i : Int} (h : 0 ≤ i) :
    ∀ c ∈ intRepr i, c ≠ '-' ∧ c ≠ ',' := by
  intro c hc
  obtain ⟨n, rfl⟩ := Int.eq_ofNat_of_zero_le h
  rw [intRepr_ofNat] at hc
  exact mem_natRepr n c hc

theorem parseNat_intRepr {i : Int} (h : 0 ≤ i) :
    (parseNat (intRepr i)).map (fun n => (n : Int)) = some i := by
  obtain ⟨n, rfl⟩ := Int.eq_ofNat_of_zero_le h
  rw [intRepr_ofNat, parseNat_natRepr]
  rfl

/-! ## Python string helpers -/

/-- Python `s.split(sep)` for a one-character separator `sep`:
always returns one more part than there are separators; parts may be empty. -/
def splitOnChar (sep : Char) : List Char → List (List Char)
  | [] => [[]]
  | c :: cs =>
    if c = sep then [] :: splitOnChar sep cs
    else
      match splitOnChar sep cs with
      | [] => [[c]]
      | t :: ts => (c :: t) :: ts

/-- Python lexicographic `<` on strings (by code point). -/
def pyStrLt : List Char → List Char → Bool
  | [], [] => false
  | [], _ :: _ => true
  | _ :: _, [] => false
  | a :: as, b :: bs =>
    if a.toNat < b.toNat then true
    else if b.toNat < a.toNat then false
    else pyStrLt as bs

/-- Python `s.startswith(p)` (arguments: string, pattern). -/
def pyStartsWith : List Char → List Char → Bool
  | _, [] => true
  | [], _ :: _ => false
  | c :: cs, p :: ps => c = p && pyStartsWith cs ps

/-- Whitespace characters recognised by Python's default `str.split()`. -/
def isPyWS (c : Char) : Bool :=
  c = ' ' || c = '\t' || c = '\n' || c = '\r'

/-- Python `s.split()` (split on whitespace runs, no empty parts):
token-accumulator loop, structurally recursive on the string.  `tok` holds
the current token's characters in reverse. -/
def pySplitWsAux : List Char → List Char → List (List Char)
  | tok, [] => if tok.isEmpty then [] else [tok.reverse]
  | tok, c :: cs =>
    if isPyWS c then
      if tok.isEmpty then pySplitWsAux [] cs
      else tok.reverse :: pySplitWsAux [] cs
    else pySplitWsAux (c :: tok) cs

/-- Python `s.split()`. -/
def pySplitWs (s : List Char) : List (List Char) :=
  pySplitWsAux [] s

/-- Python `s.split(None, maxsplit)`: like `s.split()`, but once `maxsplit`
splits have been made, the rest of the string (its leading whitespace
stripped) is one final part.  Structurally recursive on `maxsplit`. -/
def pySplitWsLim : List Char → Nat → List (List Char)
  | s, 0 =>
    match s.dropWhile isPyWS with
    | [] => []
    | c :: cs => [c :: cs]
  | s, k + 1 =>
    match s.dropWhile isPyWS with
    | [] => []
    | c :: cs =>
      ((c :: cs).takeWhile (fun x => !isPyWS x)) ::
        pySplitWsLim ((c :: cs).dropWhile (fun x => !isPyWS x)) k

theorem splitOnChar_ne_nil (sep : Char) (s : List Char) : splitOnChar sep s ≠ [] := by
  induction s with
  | nil => simp [splitOnChar]
  | cons c cs ih =>
    unfold splitOnChar
    split
    · simp
    · cases h : splitOnChar sep cs with
      | nil => simp
      | cons t ts => simp

/-- Splitting a string that starts with a separator-free chunk. -/
theorem splitOnChar_append (sep : Char) (t rest : List Char)
    (ht : ∀ c ∈ t, c ≠ sep) :
    splitOnChar sep (t ++ rest) =
      (t ++ (splitOnChar sep rest).headD []) :: (splitOnChar sep rest).tail := by
  induction t with
  | nil =>
    simp only [List.nil_append]
    cases h : splitOnChar sep rest with
    | nil => exact absurd h (splitOnChar_ne_nil sep rest)
    | cons x xs => simp
  | cons c cs ih =>
    have hc : c ≠ sep := ht c (by simp)
    have hrec := ih (fun x hx => ht x (by simp [hx]))
    simp only [List.cons_append]
    rw [splitOnChar, if_neg hc, hrec]

theorem splitOnChar_cons_sep (sep : Char) (rest : List Char) :
    splitOnChar sep (sep :: rest) = [] :: splitOnChar sep rest := by
  rw [splitOnChar, if_pos rfl]

/-! ## `tools.py`: CPU-set codecs -/

/-- One token of `tools.range_to_list`: either a plain integer, or an
inclusive `low-high` pair (`assert l <= h`, and Python's
`l, h = [int(t) for t in token.split('-')]` fails unless there are exactly
two parts). `none` models the escaped `ValueError` / `AssertionError`. -/
def parseRangeToken (token : List Char) : Option (List Int) :=
  if token.contains '-' then
    match splitOnChar '-' token with
    | [ls, hs] =>
      match parseNat ls, parseNat hs with
      | some l, some h =>
        if l ≤ h then
          some ((List.range' l (h + 1 - l)).map (fun n : Nat => (n : Int)))
        else none
      | _, _ => none
    | _ => none
  else (parseNat token).map (fun n => [(n : Int)])

/-- The accumulation loop of `tools.range_to_list`: parse every token and
concatenate the results in token order. -/
def parseTokens : List (List Char) → Option (List Int)
  | [] => some []
  | t :: ts => do
    let r ← parseRangeToken t
    let rest ← parseTokens ts
    pure (r ++ rest)

/-- `tools.range_to_list(range_str)`: the empty string is the empty list,
otherwise split on commas and parse each token. -/
def range_to_list (range_str : List Char) : Option (List Int) :=
  if range_str.length = 0 then some []
  else parseTokens (splitOnChar ',' range_str)

/-- Loop body of `tools.list_to_range_notation`: `st.1` is the `pending`
run of consecutive integers, `st.2` the string built so far.  Each emitted
token carries its leading comma, exactly as in the source. -/
def ltrnStep (st : List Int × List Char) (c : Int) : List Int × List Char :=
  if st.1.isEmpty then ([c], st.2)
  else if c = st.1.getLastD 0 + 1 then (st.1 ++ [c], st.2)
  else
    let tok : List Char :=
      if st.1.length = 1 then ',' :: intRepr (st.1.headD 0)
      else ',' :: intRepr (st.1.headD 0) ++ '-' :: intRepr (st.1.getLastD 0)
    ([c], st.2 ++ tok)

/-- `tools.list_to_range_notation(cpu_list)`: sort, fold with a `-1`
sentinel, check the final `assert pending == [-1]`, pop the initial comma.
(Python's stable `list.sort()` is modelled by insertion sort.) -/
def list_to_range_notation (cpu_list : List Int) : Option (List Char) :=
  let sorted := cpu_list.insertionSort (· ≤ ·)
  let res := (sorted ++ [-1]).foldl ltrnStep ([], [])
  if res.1 = [-1] then some (res.2.drop 1) else none

/-- `tools.mask_to_list` loop: collect the indices (offset by `cc`) of the
set bits of `mask`.  Fuel-driven structural recursion; the fuel is always
sufficient when it starts at `mask`. -/
def maskToListGo : Nat → Nat → Nat → List Int
  | 0, _, _ => []
  | fuel + 1, mask, cc =>
    if mask = 0 then []
    else
      (if mask % 2 = 1 then [(cc : Int)] else []) ++ maskToListGo fuel (mask / 2) (cc + 1)

/-- `tools.mask_to_list(mask)` (the `assert mask >= 0` holds by the `Nat` type). -/
def mask_to_list (mask : Nat) : List Int :=
  maskToListGo mask mask 0

theorem maskToListGo_fuel :
    ∀ (fuel₁ fuel₂ mask cc : Nat), mask ≤ fuel₁ → mask ≤ fuel₂ →
      maskToListGo fuel₁ mask cc = maskToListGo fuel₂ mask cc := by
  intro fuel₁
  induction fuel₁ with
  | zero =>
    intro fuel₂ mask cc h1 _
    interval_cases mask
    cases fuel₂ <;> simp [maskToListGo]
  | succ f ih =>
    intro fuel₂ mask cc h1 h2
    cases fuel₂ with
    | zero =>
      interval_cases mask
      simp [maskToListGo]
    | succ f2 =>
      simp only [maskToListGo]
      by_cases h : mask = 0
      · simp [h]
      · rw [if_neg h, if_neg h, ih f2 (mask / 2) (cc + 1) (by omega) (by omega)]

/-- `tools.list_to_mask(cpu_list)`: OR together `1 << cc`; `none` models the
`ValueError` Python raises on a negative shift. -/
def list_to_mask (cpu_list : List Int) : Option Nat :=
  cpu_list.foldl
    (fun (acc : Option Nat) (c : Int) =>
      acc.bind (fun m => if 0 ≤ c then some (m ||| (1 <<< c.toNat)) else none))
    (some 0)

/-! ## Data model

Python object references are flattened per the design notes: an `IRQ` holds
its bound `KThread` as the thread's pid, a `KThread` holds its registered
`IRQ` as the IRQ's id; `PCIDevice` holds no back references and is nested
directly.  Leading underscores of Python attribute names are dropped. -/

/-- `irqs.IRQ_TYPE`. -/
inductive IRQ_TYPE
  | NONE
  | LEGACY
  | MSI
  deriving DecidableEq, Repr

/-- `pcidevices.PCIDevice` (the `net_is_lan` flag and IP lookup involve no
claimed behaviour and are carried as plain data). -/
structure PCIDeviceRec where
  pci_addr : List Char
  irq_type : IRQ_TYPE
  irq_list : List Int
  cpu_set : List Int
  numa_node : Int
  driver : List Char := []
  net_iface : List Char := []
  ip_addr : List Char := []
  deriving DecidableEq, Repr

/-- `irqs.IRQ`: the mutable entity state. -/
structure IRQRec where
  id : Int
  smp_affinity : Nat := 0
  smp_affinity_list : List Int := []
  eff_affinity : Nat := 0
  eff_affinity_list : List Int := []
  best_node : Int := -2
  pci_device : Option PCIDeviceRec := none
  kthread_pid : Option Int := none
  count : Int := 0
  unhandled : Int := 0
  last_unhandled_ms : Int := 0
  counts : List Int
  counts_time : ℚ := 0
  counts_hz : List ℚ
  was_pinned_successfully_once : Bool := false
  deriving DecidableEq, Repr

/-- `kthread.KThread`: the mutable entity state (`alive_flag` is the
Python `_alive` attribute, `irq_ref` the registered `_irq_obj`, flattened
to the IRQ's id; the delta-tracked scheduler counters of
`refresh_contents` are not referenced by any claim and are not carried). -/
structure KTRec where
  pid : Int
  name : List Char := []
  alive_flag : Bool := true
  irq_number : Option Int := none
  irq_ref : Option Int := none
  was_cset_successfully_once : Bool := false
  deriving DecidableEq, Repr

/-- `cset.CPUSpec`: the normalized CPU-set value. -/
structure CPUSpecRec where
  name : List Char
  cpu_list : List Int
  mask : Nat
  mem_list : Option (List Int) := none
  no_irqbalance : Bool := false
  deriving DecidableEq, Repr

/-- `meta_obj.EDTObject`: the correlated device bundle. -/
structure EDTRec where
  irq : IRQRec
  kthread : KTRec
  pci_device : PCIDeviceRec
  deriving DecidableEq, Repr

/-- What one `IRQ.refresh_contents` pass reads back from the kernel
(`smp_affinity`, `effective_affinity` already decoded from their hex
strings, and the three `spurious` counters). -/
structure KernelIRQRead where
  smp_affinity : Nat := 0
  eff_affinity : Nat := 0
  spur_count : Int := 0
  spur_unhandled : Int := 0
  spur_last_ms : Int := 0
  deriving DecidableEq, Repr

/-- The warning/error diagnostics emitted by the modelled operations. -/
inductive LogMsg
  | pinPolicyViolation (irq_id : Int) (cpus : List Int) (node : Int)
  | pinWriteOSError (irq_id : Int)
  | tasksetFailed (pid : Int)
  | csetMismatch (pid : Int) (want got : List Int)
  | ktTerminated (pid : Int)
  deriving DecidableEq, Repr

/-- Kernel-facing write operations, recorded in order of execution. -/
inductive KAction
  | irqAffinityWrite (irq_id : Int) (cpus : List Int)
  | csetMove (pid : Int) (target : List Char)
  | tasksetWrite (pid : Int) (cpus : List Int)
  | chrtFifo (pid : Int) (prio : Int)
  deriving DecidableEq, Repr

/-- Python `set(a) == set(b)` on integer lists. -/
def setEqB (a b : List Int) : Bool :=
  a.all (b.contains ·) && b.all (a.contains ·)

/-- Python `set(b).issuperset(a)` on integer lists. -/
def isSubsetB (a b : List Int) : Bool :=
  a.all (b.contains ·)

/-- Python list indexing `l[i]`, including negative indices;
`none` is an `IndexError`. -/
def pythonIdx {α : Type} (l : List α) (i : Int) : Option α :=
  if 0 ≤ i then l.get? i.toNat
  else if (-i).toNat ≤ l.length then l.get? (l.length - (-i).toNat)
  else none

/-- Python `dict` lookup on an association list with unique keys. -/
def assocGet {κ ν : Type} [DecidableEq κ] : List (κ × ν) → κ → Option ν
  | [], _ => none
  | p :: ps, k => if p.1 = k then some p.2 else assocGet ps k

/-- Python `dict` assignment `d[k] = v` on an association list. -/
def assocSet {κ ν : Type} [DecidableEq κ] : List (κ × ν) → κ → ν → List (κ × ν)
  | [], k, v => [(k, v)]
  | p :: ps, k, v => if p.1 = k then (k, v) :: ps else p :: assocSet ps k v

/-! ## `irqs.py`: the IRQ entity -/

/-- `IRQ.refresh_contents`: overwrite the affinity fields and spurious
counters with what the kernel reports. -/
def IRQ.refresh_contents (irq : IRQRec) (k : KernelIRQRead) : IRQRec :=
  { irq with
    smp_affinity := k.smp_affinity
    smp_affinity_list := mask_to_list k.smp_affinity
    eff_affinity := k.eff_affinity
    eff_affinity_list := mask_to_list k.eff_affinity
    count := k.spur_count
    unhandled := k.spur_unhandled
    last_unhandled_ms := k.spur_last_ms }

/-- `IRQ.__init__(id)`: zeroed counters (`_counts` and `_counts_hz` have
one entry per CPU, `_counts_time` is `0`), then a first `refresh_contents`. -/
def IRQ.init (cpu_count : Nat) (id : Int) (k : KernelIRQRead) : IRQRec :=
  IRQ.refresh_contents
    { id := id
      counts := List.replicate cpu_count 0
      counts_hz := List.replicate cpu_count 0 }
    k

/-- `IRQ.update_counts(time_now, counts)`: per-CPU rate
`(new - old) / (time_now - old_time)`, then store the new counts and
timestamp.  `none` models the failed `assert len(counts) == tl.CPU_COUNT`. -/
def IRQ.update_counts (cpu_count : Nat) (irq : IRQRec) (time_now : ℚ)
    (counts : List Int) : Option IRQRec :=
  if counts.length = cpu_count then
    some { irq with
      counts_hz :=
        List.zipWith (fun c c0 => ((c - c0 : Int) : ℚ) / (time_now - irq.counts_time))
          counts irq.counts
      counts_time := time_now
      counts := counts }
  else none

/-- `IRQ.register_pci_device(dev)`: attach the device and copy its NUMA node. -/
def IRQ.register_pci_device (irq : IRQRec) (dev : PCIDeviceRec) : IRQRec :=
  { irq with pci_device := some dev, best_node := dev.numa_node }

/-- `IRQ.register_kthread(kthread)` (the object reference flattened to its pid). -/
def IRQ.register_kthread (irq : IRQRec) (kt_pid : Int) : IRQRec :=
  { irq with kthread_pid := some kt_pid }

/-- `IRQ.get_pin_to_cpu()`: refresh from the kernel and return the
allowed-affinity list. -/
def IRQ.get_pin_to_cpu (irq : IRQRec) (k : KernelIRQRead) : List Int × IRQRec :=
  let irq' := IRQ.refresh_contents irq k
  (irq'.smp_affinity_list, irq')

/-- Result of one `IRQ.set_pin_to_cpu` call. -/
structure PinIRQResult where
  pinned : List Int
  irq : IRQRec
  actions : List KAction
  logs : List LogMsg
  deriving DecidableEq, Repr

/-- `IRQ.set_pin_to_cpu(cpu_list, numaify_subset_ok)`.
`numa` is the `tools.NUMA_CPULIST` partition; `write_ok` tells whether the
`smp_affinity_list` procfs write raised `OSError` (caught and logged);
`k` is what the subsequent `get_pin_to_cpu` refresh reads back.
`none` models the failed `assert len(cpu_list) > 0` or an `IndexError` on
`NUMA_CPULIST[best_node]`. -/
def IRQ.set_pin_to_cpu (numa : List (List Int)) (irq : IRQRec) (cpu_list : List Int)
    (numaify_subset_ok : Bool) (write_ok : Bool) (k : KernelIRQRead) :
    Option PinIRQResult :=
  if cpu_list.length > 0 then
    let eff_and_log : Option (List Int × List LogMsg) :=
      if 0 ≤ irq.best_node then
        match numa.get? irq.best_node.toNat with
        | none => none
        | some node_cpus =>
          if ¬ isSubsetB cpu_list node_cpus then
            if numaify_subset_ok then
              some (cpu_list.filter (node_cpus.contains ·), [])
            else
              some (cpu_list, [.pinPolicyViolation irq.id cpu_list irq.best_node])
          else some (cpu_list, [])
      else some (cpu_list, [])
    eff_and_log.map (fun el =>
      let cpu_list_effective := el.1
      let logs := el.2 ++ (if write_ok then [] else [.pinWriteOSError irq.id])
      let actions := [KAction.irqAffinityWrite irq.id cpu_list_effective]
      let pr := IRQ.get_pin_to_cpu irq k
      let irq2 :=
        if setEqB pr.1 cpu_list_effective then
          { pr.2 with was_pinned_successfully_once := true }
        else pr.2
      { pinned := pr.1, irq := irq2, actions := actions, logs := logs })
  else none

/-! ## `cset.py`: the CPUSpec value -/

/-- `CPUSpec.__init__`: `assert` exactly one of `str_spec`, `cpu_list`,
`mask` is given, decode the given source into a CPU list, sort it, and
derive the bitmask.  `none` models a failed assert, a `range_to_list`
parse error, or `list_to_mask` on a negative entry. -/
def CPUSpec.init (name : List Char) (str_spec : Option (List Char))
    (cpu_list : Option (List Int)) (mem_list : Option (List Int))
    (mask : Option Nat) (no_irqbalance : Bool) : Option CPUSpecRec :=
  if str_spec.isNone.toNat + cpu_list.isNone.toNat + mask.isNone.toNat = 2 then
    let decoded : Option (List Int) :=
      match str_spec with
      | some s => range_to_list s
      | none =>
        match mask with
        | some m => some (mask_to_list m)
        | none => cpu_list
    decoded.bind (fun cl =>
      let sorted := cl.insertionSort (· ≤ ·)
      (list_to_mask sorted).map (fun m =>
        { name := name
          cpu_list := sorted
          mask := m
          mem_list := mem_list
          no_irqbalance := no_irqbalance }))
  else none

/-! ## `kthread.py`: the KThread entity -/

/-- Outcome of an `os.kill(pid, 0)` probe. -/
inductive ProbeResult
  | ok
  | permErr
  | lookupErr
  deriving DecidableEq, Repr

/-- `KThread.alive()`: once `_alive` is false, return `False` without
probing; otherwise probe the process and latch `_alive := False` on
`ProcessLookupError`. -/
def KThread.alive (kt : KTRec) (probe : ProbeResult) : Bool × KTRec :=
  if kt.alive_flag = false then (false, kt)
  else
    match probe with
    | .permErr => (true, kt)
    | .lookupErr => (false, { kt with alive_flag := false })
    | .ok => (true, kt)

/-- `KThread.get_taskset()`: read `os.sched_getaffinity` (`none` models
`ProcessLookupError`, which latches `_alive := False` and yields the empty
set) and wrap it in an anonymous `CPUSpec`.  The first component is `none`
only if the `CPUSpec` constructor fails (impossible for an OS-provided,
non-negative affinity set). -/
def KThread.get_taskset (kt : KTRec) (probe : Option (List Int)) :
    Option CPUSpecRec × KTRec :=
  match probe with
  | none =>
    let kt' := { kt with alive_flag := false }
    (CPUSpec.init kt.name none (some []) none none false, kt')
  | some aff =>
    (CPUSpec.init kt.name none (some aff) none none false, kt)

/-- `KThread.pin_taskset(taskset)`: one `taskset -pc` invocation; a nonzero
return code is logged as a warning. -/
def KThread.pin_taskset (kt : KTRec) (taskset : CPUSpecRec) (ok : Bool) :
    List KAction × List LogMsg :=
  ([KAction.tasksetWrite kt.pid taskset.cpu_list],
   if ok then [] else [.tasksetFailed kt.pid])

/-- `KThread.pin_cset(cpuset)`: force-move to the root cpuset, set the OS
affinity, force-move into the named cpuset, re-read the actual affinity
(`read_aff` oracle) and set `was_cset_successfully_once` only on an exact
set match, logging an error otherwise.  (`refresh_contents` updates only
scheduler counters, which are not carried.)  `none` models a failure of
the `CPUSpec` constructor inside `get_taskset` (impossible for OS input). -/
def KThread.pin_cset (kt : KTRec) (cpuset : CPUSpecRec) (taskset_ok : Bool)
    (read_aff : Option (List Int)) :
    Option (KTRec × List KAction × List LogMsg) :=
  let tk := KThread.pin_taskset kt cpuset taskset_ok
  let actions :=
    [KAction.csetMove kt.pid ['r', 'o', 'o', 't']] ++ tk.1 ++
      [KAction.csetMove kt.pid cpuset.name]
  let gt := KThread.get_taskset kt read_aff
  gt.1.map (fun now_cpuset =>
    if setEqB now_cpuset.cpu_list cpuset.cpu_list then
      ({ gt.2 with was_cset_successfully_once := true }, actions, tk.2)
    else
      (gt.2, actions, tk.2 ++ [.csetMismatch kt.pid cpuset.cpu_list now_cpuset.cpu_list]))

/-- `KThread.chrt_ff(rtprio)`: one `chrt -f -p` invocation. -/
def KThread.chrt_ff (kt : KTRec) (rtprio : Int) : List KAction :=
  [KAction.chrtFifo kt.pid rtprio]

/-- One observable call against a `KThread`'s liveness state. -/
inductive KTCall
  | aliveCall (p : ProbeResult)
  | tasksetCall (p : Option (List Int))
  deriving DecidableEq, Repr

/-- Thread a sequence of `alive()` / `get_taskset()` calls through the
entity state. -/
def KThread.runCalls (kt : KTRec) : List KTCall → KTRec
  | [] => kt
  | .aliveCall p :: rest => KThread.runCalls (KThread.alive kt p).2 rest
  | .tasksetCall p :: rest => KThread.runCalls (KThread.get_taskset kt p).2 rest

/-! ## `meta_obj.py`: the device bundle -/

/-- `EDTObject.__init__(irq=..., kthread=...)`.  The flattened object
references are resolved against the discovery-pass entity lists
(`kthreads`, `irqs`); in the source the attributes hold the objects
themselves, so a `none` from a failed resolution coincides with the
corresponding `assert ... is not None`.  The final `ValueError` (neither
argument given) is also `none`. -/
def EDTObject.init (kthreads : List KTRec) (irqs : List IRQRec)
    (irq : Option IRQRec) (kthread : Option KTRec) : Option EDTRec :=
  match irq with
  | some i =>
    match i.kthread_pid with
    | none => none
    | some pid =>
      match kthreads.find? (fun kt => kt.pid == pid) with
      | none => none
      | some kt =>
        match i.pci_device with
        | none => none
        | some dev => some { irq := i, kthread := kt, pci_device := dev }
  | none =>
    match kthread with
    | some kt =>
      match kt.irq_ref with
      | none => none
      | some iid =>
        match irqs.find? (fun x => x.id == iid) with
        | none => none
        | some i =>
          match i.pci_device with
          | none => none
          | some dev => some { irq := i, kthread := kt, pci_device := dev }
    | none => none

/-- Why `EDTObject.bind_to_cset` failed. -/
inductive BindErr
  | assertCpuCount
  | nodeIndexError
  | numaViolation
  | pinError
  | postAssertFailed
  deriving DecidableEq, Repr

/-- `EDTObject.bind_to_cset(cset, ktprio)`: require a one-CPU target,
require that CPU to be on the IRQ's favourite NUMA node (fatal
`RuntimeError` otherwise), pin the IRQ, pin the thread, optionally apply
the fifo priority, and hard-assert that both now report exactly that CPU.
Returns the kernel-facing actions performed (in order) and the error, if
any, that escaped. -/
def EDTObject.bind_to_cset (numa : List (List Int)) (edt : EDTRec)
    (cset : CPUSpecRec) (ktprio : Option Int)
    (irq_write_ok : Bool) (k1 : KernelIRQRead)
    (taskset_ok : Bool) (kt_read1 : Option (List Int))
    (k2 : KernelIRQRead) (kt_read2 : Option (List Int)) :
    List KAction × Option BindErr :=
  if cset.cpu_list.length = 1 then
    let cpu := cset.cpu_list.headD 0
    match pythonIdx numa edt.irq.best_node with
    | none => ([], some .nodeIndexError)
    | some node_cpus =>
      if ¬ node_cpus.contains cpu then ([], some .numaViolation)
      else
        match IRQ.set_pin_to_cpu numa edt.irq cset.cpu_list false irq_write_ok k1 with
        | none => ([], some .pinError)
        | some pres =>
          match KThread.pin_cset edt.kthread cset taskset_ok kt_read1 with
          | none => (pres.actions, some .pinError)
          | some kres =>
            let chrt_actions :=
              match ktprio with
              | some p => KThread.chrt_ff kres.1 p
              | none => []
            let actions := pres.actions ++ kres.2.1 ++ chrt_actions
            let irq_cpulist := (IRQ.get_pin_to_cpu pres.irq k2).1
            match KThread.get_taskset kres.1 kt_read2 with
            | (none, _) => (actions, some .pinError)
            | (some ts, _) =>
              let kt_cpulist := ts.cpu_list
              if (irq_cpulist.length = 1 ∧ irq_cpulist.headD 0 = cpu) ∧
                 (kt_cpulist.length = 1 ∧ kt_cpulist.headD 0 = cpu) then
                (actions, none)
              else (actions, some .postAssertFailed)
  else ([], some .assertCpuCount)

/-! ## `functions.py`: correlation and the stats sampler -/

/-- Inner loop of `match_irq_and_pci`: fold one device's claimed interrupt
numbers into the reverse map, replacing an existing claimant only when its
bus address is lexicographically smaller. -/
def claimIrqNumbers (dev : PCIDeviceRec) (lookup : List (Int × PCIDeviceRec)) :
    List (Int × PCIDeviceRec) :=
  dev.irq_list.foldl
    (fun lookup pci_irq =>
      match assocGet lookup pci_irq with
      | none => assocSet lookup pci_irq dev
      | some prev =>
        if pyStrLt prev.pci_addr dev.pci_addr then assocSet lookup pci_irq dev
        else lookup)
    lookup

/-- The `reverse_lookup` dict of `match_irq_and_pci`. -/
def matchIrqPciLookup (devs : List PCIDeviceRec) : List (Int × PCIDeviceRec) :=
  devs.foldl (fun lookup dev => claimIrqNumbers dev lookup) []

/-- `match_irq_and_pci(irqs, devs)`: attach the winning claimant of each
IRQ id (greater bus address wins) and copy its NUMA node. -/
def match_irq_and_pci (irqs : List IRQRec) (devs : List PCIDeviceRec) :
    List IRQRec :=
  let lookup := matchIrqPciLookup devs
  irqs.map (fun irq =>
    match assocGet lookup irq.id with
    | some dev => IRQ.register_pci_device irq dev
    | none => irq)

/-- One parsed `/proc/interrupts` row as stored in the `SortedDict`
(`num_cpus`, optional trailing `type_device` column, per-CPU counts). -/
structure RowInfo where
  num_cpus : Nat
  type_device : Option (List Char) := none
  counts : List Int
  deriving DecidableEq, Repr

/-- `[int(part) for part in ...]`: parse every count column. -/
def parseCounts : List (List Char) → Option (List Int)
  | [] => some []
  | p :: ps => do
    let v ← parseInt p
    let rest ← parseCounts ps
    pure (v :: rest)

/-- Row loop of `update_from_proc_interrupts`: split each line with
`maxsplit = len(cpu_names) + 1`, strip `:` from the row name, take the
trailing type/device column only when the row is one part wider than the
header, truncate the count columns to the header width (`zip`), and store
the row under its name (later duplicate names overwrite earlier ones). -/
def parseInterruptRows (ncpus : Nat) :
    List (List Char × RowInfo) → List (List Char) → Option (List (List Char × RowInfo))
  | data, [] => some data
  | data, line :: rest =>
    let parts := pySplitWsLim line (ncpus + 1)
    match parts with
    | [] => none
    | p0 :: restParts =>
      let irq_name := p0.filter (fun c => c ≠ ':')
      let row? : Option RowInfo :=
        if parts.length = ncpus + 2 then
          (parseCounts (restParts.dropLast.take ncpus)).map
            (fun cs => { num_cpus := ncpus, type_device := parts.getLast?, counts := cs })
        else
          (parseCounts (restParts.take ncpus)).map
            (fun cs => { num_cpus := ncpus, counts := cs })
      match row? with
      | none => none
      | some row => parseInterruptRows ncpus (assocSet data irq_name row) rest

/-- Parsing phase of `update_from_proc_interrupts`: header row of `CPUn`
column names, then the per-IRQ rows keyed by row name.  `none` models the
`AssertionError`s on an empty file, a malformed header, an unparsable
count, or an empty table. -/
def parseInterruptsContent (content : List (List Char)) :
    Option (List (List Char × RowInfo)) :=
  match content with
  | [] => none
  | header :: rows =>
    let cpu_names := pySplitWs header
    if cpu_names.length < 1 then none
    else if ¬ pyStartsWith (cpu_names.headD []) ['C', 'P', 'U'] then none
    else
      match parseInterruptRows cpu_names.length [] rows with
      | none => none
      | some data => if data.length < 1 then none else some data

/-- Update loop of `update_from_proc_interrupts`: every tracked IRQ whose
`str(id)` is a key of the snapshot dict gets `update_counts`; the others
are left untouched. -/
def updateTracked (cpu_count : Nat) (time_now : ℚ)
    (data : List (List Char × RowInfo)) : List IRQRec → Option (List IRQRec)
  | [] => some []
  | irq :: rest => do
    let irq' ←
      match assocGet data (intRepr irq.id) with
      | some row => IRQ.update_counts cpu_count irq time_now row.counts
      | none => some irq
    let rest' ← updateTracked cpu_count time_now data rest
    pure (irq' :: rest')

/-- `update_from_proc_interrupts(irq_list)` on a snapshot `content` (the
lines of `/proc/interrupts`) taken at `time_now`. -/
def update_from_proc_interrupts (cpu_count : Nat) (time_now : ℚ)
    (content : List (List Char)) (irq_list : List IRQRec) :
    Option (List IRQRec) :=
  (parseInterruptsContent content).bind
    (fun data => updateTracked cpu_count time_now data irq_list)

/-! ## Claim C9: liveness latch -/

theorem alive_false_state {kt : KTRec} {p : ProbeResult}
    (h : (KThread.alive kt p).1 = false) :
    (KThread.alive kt p).2.alive_flag = false := by
  cases hf : kt.alive_flag
  · simp [KThread.alive, hf]
  · cases p <;> simp [KThread.alive, hf] at h ⊢

theorem alive_flag_never_set (kt : KTRec) (calls : List KTCall)
    (h : kt.alive_flag = false) :
    (KThread.runCalls kt calls).alive_flag = false := by
  induction calls generalizing kt with
  | nil => simpa [KThread.runCalls] using h
  | cons c rest ih =>
    cases c with
    | aliveCall p =>
      have h2 : (KThread.alive kt p).2.alive_flag = false := by
        simp [KThread.alive, h]
      simpa [KThread.runCalls] using ih _ h2
    | tasksetCall p =>
      have h2 : (KThread.get_taskset kt p).2.alive_flag = false := by
        cases p <;> simp [KThread.get_taskset, h]
      simpa [KThread.runCalls] using ih _ h2

theorem alive_of_flag_false {kt : KTRec} (h : kt.alive_flag = false)
    (p : ProbeResult) : (KThread.alive kt p).1 = false := by
  simp [KThread.alive, h]

/-- **C9** (confirmed): once `KThread.alive()` has returned `False`, every
subsequent `alive()` call returns `False`, whatever other `alive()` /
`get_taskset()` calls and probe outcomes happen in between — the thread
never reports alive again. -/
theorem C9_dead_kthread_stays_dead (kt : KTRec) (p : ProbeResult)
    (h : (KThread.alive kt p).1 = false) (calls : List KTCall)
    (p' : ProbeResult) :
    (KThread.alive (KThread.runCalls (KThread.alive kt p).2 calls) p').1 = false :=
  alive_of_flag_false (alive_flag_never_set _ calls (alive_false_state h)) p'

/-- Witness for C9 at a concrete thread, probe sequence and final probe. -/
theorem C9_witness :
    (KThread.alive { pid := 3 } ProbeResult.lookupErr).1 = false ∧
    (KThread.alive
        (KThread.runCalls (KThread.alive { pid := 3 } ProbeResult.lookupErr).2
          [KTCall.aliveCall ProbeResult.ok, KTCall.tasksetCall (some [1])])
        ProbeResult.ok).1 = false :=
  ⟨by decide, C9_dead_kthread_stays_dead { pid := 3 } ProbeResult.lookupErr (by decide)
     [KTCall.aliveCall ProbeResult.ok, KTCall.tasksetCall (some [1])] ProbeResult.ok⟩

/-! ## Claim C10: pin-success flags are monotone -/

theorem set_pin_flag_monotone {numa : List (List Int)} {irq : IRQRec}
    {cpu_list : List Int} {ok wok : Bool} {k : KernelIRQRead} {res : PinIRQResult}
    (h : IRQ.set_pin_to_cpu numa irq cpu_list ok wok k = some res)
    (hold : irq.was_pinned_successfully_once = true) :
    res.irq.was_pinned_successfully_once = true := by
  unfold IRQ.set_pin_to_cpu at h
  split at h
  · rw [Option.map_eq_some'] at h
    obtain ⟨el, _, hres⟩ := h
    subst hres
    simp only []
    split
    · rfl
    · simpa [IRQ.get_pin_to_cpu, IRQ.refresh_contents] using hold
  · simp at h

theorem set_pin_mismatch_keeps_flag {numa : List (List Int)} {irq : IRQRec}
    {cpu_list eff : List Int} {ok wok : Bool} {k : KernelIRQRead} {res : PinIRQResult}
    (h : IRQ.set_pin_to_cpu numa irq cpu_list ok wok k = some res)
    (heff : res.actions = [KAction.irqAffinityWrite irq.id eff])
    (hmis : setEqB res.pinned eff = false) :
    res.irq.was_pinned_successfully_once = irq.was_pinned_successfully_once := by
  unfold IRQ.set_pin_to_cpu at h
  split at h
  · rw [Option.map_eq_some'] at h
    obtain ⟨el, _, hres⟩ := h
    subst hres
    simp only [] at heff hmis ⊢
    have heq : el.1 = eff := by
      simpa using heff
    subst heq
    rw [if_neg (by simp [hmis])]
    simp [IRQ.get_pin_to_cpu, IRQ.refresh_contents]
  · simp at h

theorem pin_cset_flag_monotone {kt : KTRec} {cpuset : CPUSpecRec} {tok : Bool}
    {read : Option (List Int)} {res : KTRec × List KAction × List LogMsg}
    (h : KThread.pin_cset kt cpuset tok read = some res)
    (hold : kt.was_cset_successfully_once = true) :
    res.1.was_cset_successfully_once = true := by
  unfold KThread.pin_cset at h
  rw [Option.map_eq_some'] at h
  obtain ⟨cs, _, hres⟩ := h
  subst hres
  simp only []
  split
  · rfl
  · cases read <;> simp [KThread.get_taskset, hold]

theorem pin_cset_mismatch_keeps_flag {kt : KTRec} {cpuset : CPUSpecRec} {tok : Bool}
    {read : Option (List Int)} {res : KTRec × List KAction × List LogMsg}
    {want got : List Int}
    (h : KThread.pin_cset kt cpuset tok read = some res)
    (hlog : LogMsg.csetMismatch kt.pid want got ∈ res.2.2) :
    res.1.was_cset_successfully_once = kt.was_cset_successfully_once := by
  unfold KThread.pin_cset at h
  rw [Option.map_eq_some'] at h
  obtain ⟨cs, _, hres⟩ := h
  subst hres
  simp only [] at hlog ⊢
  split at hlog
  · exact absurd hlog (by cases tok <;> simp [KThread.pin_taskset])
  · next hcond =>
    rw [if_neg hcond]
    cases read <;> simp [KThread.get_taskset]

/-- **C10** (confirmed): the per-entity pin-success flags are monotone.
Once `IRQ.was_pinned_successfully_once` (resp.
`KThread.was_cset_successfully_once`) is `True`, no later
`IRQ.set_pin_to_cpu` (resp. `KThread.pin_cset`) resets it to `False`; a
pin whose read-back verification mismatches leaves the previously
recorded success in place (and, for `pin_cset`, only logs the mismatch). -/
theorem C10_pin_success_flags_monotone :
    (∀ (numa : List (List Int)) (irq : IRQRec) (cpu_list : List Int)
       (ok wok : Bool) (k : KernelIRQRead) (res : PinIRQResult),
        IRQ.set_pin_to_cpu numa irq cpu_list ok wok k = some res →
        irq.was_pinned_successfully_once = true →
        res.irq.was_pinned_successfully_once = true) ∧
    (∀ (numa : List (List Int)) (irq : IRQRec) (cpu_list eff : List Int)
       (ok wok : Bool) (k : KernelIRQRead) (res : PinIRQResult),
        IRQ.set_pin_to_cpu numa irq cpu_list ok wok k = some res →
        res.actions = [KAction.irqAffinityWrite irq.id eff] →
        setEqB res.pinned eff = false →
        res.irq.was_pinned_successfully_once = irq.was_pinned_successfully_once) ∧
    (∀ (kt : KTRec) (cpuset : CPUSpecRec) (tok : Bool) (read : Option (List Int))
       (res : KTRec × List KAction × List LogMsg),
        KThread.pin_cset kt cpuset tok read = some res →
        kt.was_cset_successfully_once = true →
        res.1.was_cset_successfully_once = true) ∧
    (∀ (kt : KTRec) (cpuset : CPUSpecRec) (tok : Bool) (read : Option (List Int))
       (res : KTRec × List KAction × List LogMsg) (want got : List Int),
        KThread.pin_cset kt cpuset tok read = some res →
        LogMsg.csetMismatch kt.pid want got ∈ res.2.2 →
        res.1.was_cset_successfully_once = kt.was_cset_successfully_once) :=
  ⟨fun _ _ _ _ _ _ _ h hold => set_pin_flag_monotone h hold,
   fun _ _ _ _ _ _ _ _ h heff hmis => set_pin_mismatch_keeps_flag h heff hmis,
   fun _ _ _ _ _ h hold => pin_cset_flag_monotone h hold,
   fun _ _ _ _ _ _ _ h hlog => pin_cset_mismatch_keeps_flag h hlog⟩

/-- Witness for C10: a concrete already-successful IRQ stays successful
through another pin whose read-back does not even match. -/
theorem C10_witness :
    (IRQ.set_pin_to_cpu []
        { id := 1, counts := [], counts_hz := [], was_pinned_successfully_once := true }
        [0] false true {}).map (fun r => r.irq.was_pinned_successfully_once) =
      some true := by
  cases hres : IRQ.set_pin_to_cpu []
      { id := 1, counts := [], counts_hz := [], was_pinned_successfully_once := true }
      [0] false true {} with
  | none => exact absurd hres (by decide)
  | some res =>
    have := C10_pin_success_flags_monotone.1 []
      { id := 1, counts := [], counts_hz := [], was_pinned_successfully_once := true }
      [0] false true {} res hres rfl
    simp [this]

/-! ## Claim C3: NUMA relaxation in `IRQ.set_pin_to_cpu` -/

/-- **C3** (confirmed): for an IRQ with a known preferred NUMA node and a
non-empty target that is not a subset of that node's CPU set,
`set_pin_to_cpu` with relaxation enabled writes the intersection of the
target with the node's set (in target order, possibly empty) to the
kernel, without a policy-violation log; with relaxation disabled it
writes the original target unchanged and logs the policy violation. -/
theorem C3_numa_relaxation (numa : List (List Int)) (irq : IRQRec)
    (cpu_list node_cpus : List Int) (write_ok : Bool) (k : KernelIRQRead)
    (hne : cpu_list ≠ [])
    (hbn : 0 ≤ irq.best_node)
    (hnode : numa.get? irq.best_node.toNat = some node_cpus)
    (hnsub : isSubsetB cpu_list node_cpus = false) :
    ((IRQ.set_pin_to_cpu numa irq cpu_list true write_ok k).map
        (fun r => (r.actions, r.logs)) =
      some ([KAction.irqAffinityWrite irq.id (cpu_list.filter (node_cpus.contains ·))],
            if write_ok then [] else [LogMsg.pinWriteOSError irq.id])) ∧
    ((IRQ.set_pin_to_cpu numa irq cpu_list false write_ok k).map
        (fun r => (r.actions, r.logs)) =
      some ([KAction.irqAffinityWrite irq.id cpu_list],
            [LogMsg.pinPolicyViolation irq.id cpu_list irq.best_node] ++
              if write_ok then [] else [LogMsg.pinWriteOSError irq.id])) := by
  have hlen : cpu_list.length > 0 := List.length_pos.mpr hne
  have hnode' : numa[irq.best_node.toNat]? = some node_cpus := by
    simpa using hnode
  constructor <;>
    simp [IRQ.set_pin_to_cpu, hlen, hbn, hnode', hnsub]

/-- Witness for C3: node CPU set `{0,1,2,3}`, target `[1,2,9]` — relaxed
pin writes `[1,2]`, unrelaxed pin writes `[1,2,9]` and logs the violation. -/
theorem C3_witness :
    ([1, 2, 9] : List Int) ≠ [] ∧
    (0 : Int) ≤ 0 ∧
    [[0, 1, 2, 3]].get? (0 : Int).toNat = some [0, 1, 2, 3] ∧
    isSubsetB [1, 2, 9] [0, 1, 2, 3] = false ∧
    ((IRQ.set_pin_to_cpu [[0, 1, 2, 3]]
          { id := 5, best_node := 0, counts := [], counts_hz := [] }
          [1, 2, 9] true true {}).map (fun r => (r.actions, r.logs)) =
        some ([KAction.irqAffinityWrite 5 [1, 2]], [])) ∧
    ((IRQ.set_pin_to_cpu [[0, 1, 2, 3]]
          { id := 5, best_node := 0, counts := [], counts_hz := [] }
          [1, 2, 9] false true {}).map (fun r => (r.actions, r.logs)) =
        some ([KAction.irqAffinityWrite 5 [1, 2, 9]],
              [LogMsg.pinPolicyViolation 5 [1, 2, 9] 0])) := by
  refine ⟨by decide, by decide, by decide, by decide, ?_, ?_⟩
  · have := (C3_numa_relaxation [[0, 1, 2, 3]]
      { id := 5, best_node := 0, counts := [], counts_hz := [] }
      [1, 2, 9] [0, 1, 2, 3] true {} (by decide) (by decide) (by decide) (by decide)).1
    simpa using this
  · have := (C3_numa_relaxation [[0, 1, 2, 3]]
      { id := 5, best_node := 0, counts := [], counts_hz := [] }
      [1, 2, 9] [0, 1, 2, 3] true {} (by decide) (by decide) (by decide) (by decide)).2
    simpa using this

/-! ## Claim C6: composite bind fails before any kernel action -/

/-- **C6** (confirmed): `EDTObject.bind_to_cset` with a target naming more
than one CPU fails on the entry assert with an empty kernel-action trace
(no IRQ pin, no kthread pin, no priority change); with a single-CPU target
that is not on the device's preferred NUMA node it raises the fatal
`RuntimeError`, again with an empty action trace. -/
theorem C6_composite_bind_guards (numa : List (List Int)) (edt : EDTRec)
    (cset : CPUSpecRec) (ktprio : Option Int) (irq_write_ok : Bool)
    (k1 : KernelIRQRead) (taskset_ok : Bool) (kt_read1 : Option (List Int))
    (k2 : KernelIRQRead) (kt_read2 : Option (List Int)) :
    (cset.cpu_list.length > 1 →
      EDTObject.bind_to_cset numa edt cset ktprio irq_write_ok k1 taskset_ok
          kt_read1 k2 kt_read2 =
        ([], some BindErr.assertCpuCount)) ∧
    (∀ node_cpus : List Int,
      cset.cpu_list.length = 1 →
      pythonIdx numa edt.irq.best_node = some node_cpus →
      node_cpus.contains (cset.cpu_list.headD 0) = false →
      EDTObject.bind_to_cset numa edt cset ktprio irq_write_ok k1 taskset_ok
          kt_read1 k2 kt_read2 =
        ([], some BindErr.numaViolation)) := by
  constructor
  · intro hgt
    unfold EDTObject.bind_to_cset
    rw [if_neg (by omega)]
  · intro node_cpus hone hidx hmem
    unfold EDTObject.bind_to_cset
    rw [if_pos hone, hidx]
    have hmem' : ¬ cset.cpu_list.headD 0 ∈ node_cpus := by
      simpa using hmem
    simp [hmem']
    intro hx
    exact absurd hx (by simpa using hmem')

/-- Witness for C6 at a concrete bundle: the list `[1,2]` is rejected with
no kernel action, and the off-node CPU `5` is rejected fatally with no
kernel action. -/
theorem C6_witness :
    (EDTObject.bind_to_cset [[0, 1, 2, 3]]
        { irq := { id := 7, best_node := 0, counts := [], counts_hz := [] },
          kthread := { pid := 9 },
          pci_device :=
            { pci_addr := ['a'], irq_type := IRQ_TYPE.LEGACY, irq_list := [7],
              cpu_set := [0], numa_node := 0 } }
        { name := ['s'], cpu_list := [1, 2], mask := 6 } none true {} true
        (some [1]) {} (some [1]) =
      ([], some BindErr.assertCpuCount)) ∧
    (EDTObject.bind_to_cset [[0, 1, 2, 3]]
        { irq := { id := 7, best_node := 0, counts := [], counts_hz := [] },
          kthread := { pid := 9 },
          pci_device :=
            { pci_addr := ['a'], irq_type := IRQ_TYPE.LEGACY, irq_list := [7],
              cpu_set := [0], numa_node := 0 } }
        { name := ['s'], cpu_list := [5], mask := 32 } none true {} true
        (some [1]) {} (some [1]) =
      ([], some BindErr.numaViolation)) := by
  constructor
  · exact (C6_composite_bind_guards [[0, 1, 2, 3]]
      { irq := { id := 7, best_node := 0, counts := [], counts_hz := [] },
        kthread := { pid := 9 },
        pci_device :=
          { pci_addr := ['a'], irq_type := IRQ_TYPE.LEGACY, irq_list := [7],
            cpu_set := [0], numa_node := 0 } }
      { name := ['s'], cpu_list := [1, 2], mask := 6 } none true {} true
      (some [1]) {} (some [1])).1 (by decide)
  · exact (C6_composite_bind_guards [[0, 1, 2, 3]]
      { irq := { id := 7, best_node := 0, counts := [], counts_hz := [] },
        kthread := { pid := 9 },
        pci_device :=
          { pci_addr := ['a'], irq_type := IRQ_TYPE.LEGACY, irq_list := [7],
            cpu_set := [0], numa_node := 0 } }
      { name := ['s'], cpu_list := [5], mask := 32 } none true {} true
      (some [1]) {} (some [1])).2 [0, 1, 2, 3] (by decide) (by decide) (by decide)

/-! ## Claim C7: device-bundle constructibility -/

/-- **C7 counterexample**: `EDTObject.__init__` succeeds on an input whose
kthread→IRQ back-reference is missing (`irq_ref = none`), so construction
does *not* require the IRQ and its kernel thread to reference each other
consistently — refuting the claim that any missing or mutually
inconsistent cross-reference makes construction fail. -/
theorem C7_counterexample :
    (EDTObject.init [{ pid := 7 }] []
        (some { id := 5, kthread_pid := some 7,
                pci_device := some { pci_addr := ['a'], irq_type := IRQ_TYPE.LEGACY,
                                     irq_list := [5], cpu_set := [0], numa_node := 0 },
                counts := [], counts_hz := [] })
        none).isSome = true ∧
    ({ pid := 7 } : KTRec).irq_ref = none := by
  decide

/-- **C7 amended** (proved): a `DeviceBundle` built from an IRQ is
constructible iff the IRQ references some kernel thread (found in the
entity list) and references its PCI device; built from a kthread, iff the
thread references an IRQ which references a PCI device; with neither
argument construction fails.  The agreement of the IRQ→kthread and
kthread→IRQ references is *not* checked. -/
theorem C7_bundle_construction_checks (kthreads : List KTRec) (irqs : List IRQRec) :
    (∀ i : IRQRec,
      (EDTObject.init kthreads irqs (some i) none).isSome = true ↔
        (∃ pid, i.kthread_pid = some pid ∧
           (kthreads.find? (fun kt => kt.pid == pid)).isSome = true) ∧
        i.pci_device.isSome = true) ∧
    (∀ kt : KTRec,
      (EDTObject.init kthreads irqs none (some kt)).isSome = true ↔
        ∃ iid i2, kt.irq_ref = some iid ∧
          irqs.find? (fun x => x.id == iid) = some i2 ∧
          i2.pci_device.isSome = true) ∧
    EDTObject.init kthreads irqs none none = none := by
  refine ⟨fun i => ?_, fun kt => ?_, rfl⟩
  · cases hk : i.kthread_pid with
    | none => simp [EDTObject.init, hk]
    | some pid =>
      cases hf : kthreads.find? (fun kt => kt.pid == pid) with
      | none =>
        simp [EDTObject.init, hk, hf]
        intro x hx hpid
        exact absurd hpid (by simpa using List.find?_eq_none.mp hf x hx)
      | some kt =>
        cases hp : i.pci_device with
        | none => simp [EDTObject.init, hk, hf, hp]
        | some dev =>
          simp [EDTObject.init, hk, hf, hp]
          exact ⟨kt, List.mem_of_find?_eq_some hf, by simpa using List.find?_some hf⟩
  · cases hr : kt.irq_ref with
    | none => simp [EDTObject.init, hr]
    | some iid =>
      cases hf : irqs.find? (fun x => x.id == iid) with
      | none => simp [EDTObject.init, hr, hf]
      | some i2 =>
        cases hp : i2.pci_device with
        | none => simp [EDTObject.init, hr, hf, hp]
        | some dev => simp [EDTObject.init, hr, hf, hp]

/-- Witness for C7 at a concrete bundle. -/
theorem C7_witness :
    (EDTObject.init [{ pid := 7 }] []
        (some { id := 5, kthread_pid := some 7,
                pci_device := some { pci_addr := ['b'], irq_type := IRQ_TYPE.MSI,
                                     irq_list := [5], cpu_set := [1], numa_node := 1 },
                counts := [], counts_hz := [] })
        none).isSome = true :=
  ((C7_bundle_construction_checks [{ pid := 7 }] []).1 _).mpr
    ⟨⟨7, rfl, by decide⟩, rfl⟩

/-! ## Claim C1: the first counts update -/

theorem zipWith_replicate_right {α β γ : Type} (f : α → β → γ) (z : β) :
    ∀ (l : List α) (n : Nat), l.length = n →
      List.zipWith f l (List.replicate n z) = l.map (fun a => f a z) := by
  intro l
  induction l with
  | nil => intro n _; simp
  | cons a as ih =>
    intro n hn
    cases n with
    | zero => simp at hn
    | succ m =>
      simp only [List.replicate, List.zipWith, List.map]
      rw [ih m (by simpa using hn)]

/-- **C1 counterexample**: the very first `update_counts` on a fresh IRQ
(counts `[100]` at time `10`) stores the per-CPU rate `[10]` — it *is*
computed from the bogus initial baseline (zero counts at timestamp zero)
and is not zero/undefined. -/
theorem C1_counterexample :
    (IRQ.update_counts 1 (IRQ.init 1 0 {}) 10 [100]).map (fun r => r.counts_hz) =
      some [10] ∧ (10 : ℚ) ≠ 0 := by
  constructor
  · norm_num [IRQ.update_counts, IRQ.init, IRQ.refresh_contents]
  · norm_num

/-- **C1 amended** (proved): after the first `update_counts` call on a
fresh IRQ (as driven by `update_from_proc_interrupts`), the stored per-CPU
rate is `counts / time_now`, computed from the initial all-zero counts and
zero timestamp; it is zero only where the observed count is zero, not
unconditionally zero/undefined. -/
theorem C1_first_update_rate (cpu_count : Nat) (id : Int) (k : KernelIRQRead)
    (t : ℚ) (counts : List Int)
    (hlen : counts.length = cpu_count) (ht : t ≠ 0) :
    (IRQ.update_counts cpu_count (IRQ.init cpu_count id k) t counts).map
        (fun r => r.counts_hz) =
      some (counts.map (fun c : Int => (c : ℚ) / t)) := by
  have hinit_counts : (IRQ.init cpu_count id k).counts = List.replicate cpu_count 0 := rfl
  have hinit_time : (IRQ.init cpu_count id k).counts_time = 0 := rfl
  unfold IRQ.update_counts
  rw [if_pos hlen, hinit_counts, hinit_time]
  rw [zipWith_replicate_right _ _ counts cpu_count hlen]
  simp only [sub_zero]
  rfl

/-- Witness for C1 amended: two CPUs, counts `[100, 0]` at `t = 10`. -/
theorem C1_witness :
    ([100, 0] : List Int).length = 2 ∧ (10 : ℚ) ≠ 0 ∧
    (IRQ.update_counts 2 (IRQ.init 2 3 {}) 10 [100, 0]).map (fun r => r.counts_hz) =
      some [10, 0] := by
  refine ⟨by decide, by norm_num, ?_⟩
  have h := C1_first_update_rate 2 3 {} 10 [100, 0] (by decide) (by norm_num)
  have h2 : ([100, 0] : List Int).map (fun c : Int => (c : ℚ) / 10) = [10, 0] := by
    norm_num
  rw [← h2]
  exact h

/-! ## Claim C8: sampler frame effect -/

theorem assocGet_assocSet_ne {κ ν : Type} [DecidableEq κ]
    (d : List (κ × ν)) (k k' : κ) (v : ν) (h : k' ≠ k) :
    assocGet (assocSet d k v) k' = assocGet d k' := by
  have hkk : ¬ (k = k') := fun e => h e.symm
  induction d with
  | nil => simp [assocGet, assocSet, hkk]
  | cons p ps ih =>
    by_cases hp : p.1 = k
    · have hpk : ¬ (p.1 = k') := by rw [hp]; exact hkk
      simp only [assocSet, if_pos hp, assocGet, if_neg hkk, if_neg hpk]
    · simp only [assocSet, if_neg hp, assocGet]
      by_cases hp' : p.1 = k'
      · simp [hp']
      · simp [hp', ih]

theorem assocGet_assocSet_self {κ ν : Type} [DecidableEq κ]
    (d : List (κ × ν)) (k : κ) (v : ν) :
    assocGet (assocSet d k v) k = some v := by
  induction d with
  | nil => simp [assocGet, assocSet]
  | cons p ps ih =>
    by_cases hp : p.1 = k
    · simp [assocSet, hp, assocGet]
    · simp [assocSet, hp, assocGet, ih]

theorem updateTracked_congr (cpu_count : Nat) (t : ℚ)
    (d1 d2 : List (List Char × RowInfo)) (irqs : List IRQRec)
    (h : ∀ irq ∈ irqs, assocGet d1 (intRepr irq.id) = assocGet d2 (intRepr irq.id)) :
    updateTracked cpu_count t d1 irqs = updateTracked cpu_count t d2 irqs := by
  induction irqs with
  | nil => rfl
  | cons irq rest ih =>
    unfold updateTracked
    rw [h irq (by simp), ih (fun x hx => h x (by simp [hx]))]

theorem updateTracked_spec (cpu_count : Nat) (t : ℚ)
    (data : List (List Char × RowInfo)) :
    ∀ (irqs out : List IRQRec),
      updateTracked cpu_count t data irqs = some out →
      ∀ (i : Nat) (irq : IRQRec), irqs.get? i = some irq →
        ∃ irq', out.get? i = some irq' ∧
          ((assocGet data (intRepr irq.id) = none ∧ irq' = irq) ∨
           (∃ row, assocGet data (intRepr irq.id) = some row ∧
              IRQ.update_counts cpu_count irq t row.counts = some irq')) := by
  intro irqs
  induction irqs with
  | nil => intro out _ i irq hi; simp at hi
  | cons hd rest ih =>
    intro out hout i irq hi
    unfold updateTracked at hout
    cases hget : assocGet data (intRepr hd.id) with
    | none =>
      cases hrest : updateTracked cpu_count t data rest with
      | none => simp [hget, hrest] at hout
      | some out' =>
        simp only [hget, hrest, Option.pure_def, Option.bind_eq_bind,
          Option.some_bind, Option.some.injEq] at hout
        subst hout
        cases i with
        | zero =>
          simp only [List.get?, Option.some.injEq] at hi
          subst hi
          exact ⟨hd, rfl, Or.inl ⟨hget, rfl⟩⟩
        | succ j =>
          simp only [List.get?] at hi ⊢
          exact ih out' hrest j irq hi
    | some row =>
      cases hup : IRQ.update_counts cpu_count hd t row.counts with
      | none => simp [hget, hup] at hout
      | some hd' =>
        cases hrest : updateTracked cpu_count t data rest with
        | none => simp [hget, hup, hrest] at hout
        | some out' =>
          simp only [hget, hup, hrest, Option.pure_def, Option.bind_eq_bind,
            Option.some_bind, Option.some.injEq] at hout
          subst hout
          cases i with
          | zero =>
            simp only [List.get?, Option.some.injEq] at hi
            subst hi
            exact ⟨hd', rfl, Or.inr ⟨row, hget, hup⟩⟩
          | succ j =>
            simp only [List.get?] at hi ⊢
            exact ih out' hrest j irq hi

/-- **C8** (confirmed): one `update_from_proc_interrupts` pass on a
well-formed snapshot (i) leaves every tracked IRQ whose `str(id)` is not a
key of the parsed snapshot dict completely unchanged (counts, timestamp,
rates and all other fields), (ii) is unaffected by adding to the snapshot
dict a row whose name matches no tracked IRQ, and (iii) updates exactly
the tracked IRQs present in the snapshot, via `update_counts`, leaving the
rest identical. -/
theorem C8_sampler_frame (cpu_count : Nat) (t : ℚ) (content : List (List Char))
    (irqs out : List IRQRec) (data : List (List Char × RowInfo))
    (hparse : parseInterruptsContent content = some data)
    (hrun : update_from_proc_interrupts cpu_count t content irqs = some out) :
    (∀ (i : Nat) (irq : IRQRec), irqs.get? i = some irq →
       assocGet data (intRepr irq.id) = none → out.get? i = some irq) ∧
    (∀ (name : List Char) (row : RowInfo),
       (∀ irq ∈ irqs, intRepr irq.id ≠ name) →
       updateTracked cpu_count t (assocSet data name row) irqs = some out) ∧
    (∀ (i : Nat) (irq : IRQRec), irqs.get? i = some irq →
       ∃ irq', out.get? i = some irq' ∧
         ((assocGet data (intRepr irq.id) = none ∧ irq' = irq) ∨
          (∃ row, assocGet data (intRepr irq.id) = some row ∧
             IRQ.update_counts cpu_count irq t row.counts = some irq'))) := by
  have hup : updateTracked cpu_count t data irqs = some out := by
    unfold update_from_proc_interrupts at hrun
    rw [hparse] at hrun
    exact hrun
  refine ⟨?_, ?_, ?_⟩
  · intro i irq hi hnone
    obtain ⟨irq', hout', hcase⟩ := updateTracked_spec cpu_count t data irqs out hup i irq hi
    rcases hcase with ⟨_, rfl⟩ | ⟨row, hrow, _⟩
    · exact hout'
    · rw [hnone] at hrow; cases hrow
  · intro name row hname
    rw [updateTracked_congr cpu_count t (assocSet data name row) data irqs
      (fun irq hirq => assocGet_assocSet_ne data name (intRepr irq.id) row (hname irq hirq))]
    exact hup
  · exact updateTracked_spec cpu_count t data irqs out hup

/-- Witness for C8 on a concrete two-row snapshot: tracked IRQ `7` absent
from the table stays untouched, and an extra unmatched row changes nothing. -/
theorem C8_witness :
    parseInterruptsContent
        [('C' :: 'P' :: 'U' :: '0' :: []), ('4' :: '2' :: ':' :: ' ' :: '1' :: '0' :: [])] =
      some [(['4', '2'], { num_cpus := 1, type_device := none, counts := [10] })] ∧
    update_from_proc_interrupts 1 5
        [('C' :: 'P' :: 'U' :: '0' :: []), ('4' :: '2' :: ':' :: ' ' :: '1' :: '0' :: [])]
        [{ id := 7, counts := [0], counts_hz := [0] }] =
      some [{ id := 7, counts := [0], counts_hz := [0] }] ∧
    ([{ id := 7, counts := [0], counts_hz := [0] }] : List IRQRec).get? 0 =
      some { id := 7, counts := [0], counts_hz := [0] } := by
  refine ⟨by decide, by decide, ?_⟩
  exact (C8_sampler_frame 1 5
      [('C' :: 'P' :: 'U' :: '0' :: []), ('4' :: '2' :: ':' :: ' ' :: '1' :: '0' :: [])]
      [{ id := 7, counts := [0], counts_hz := [0] }]
      [{ id := 7, counts := [0], counts_hz := [0] }]
      [(['4', '2'], { num_cpus := 1, type_device := none, counts := [10] })]
      (by decide) (by decide)).1 0
    { id := 7, counts := [0], counts_hz := [0] } rfl (by decide)

/-! ## Claim C5: CPUSpec construction -/

theorem list_to_mask_fold_none (l : List Int) :
    l.foldl
      (fun (acc : Option Nat) (c : Int) =>
        acc.bind (fun m => if 0 ≤ c then some (m ||| (1 <<< c.toNat)) else none))
      none = none := by
  induction l with
  | nil => rfl
  | cons c cs ih => simpa using ih

theorem list_to_mask_fold_bits :
    ∀ (l : List Int) (a m : Nat),
      l.foldl
        (fun (acc : Option Nat) (c : Int) =>
          acc.bind (fun m => if 0 ≤ c then some (m ||| (1 <<< c.toNat)) else none))
        (some a) = some m →
      ∀ i : Nat, m.testBit i = true ↔ (a.testBit i = true ∨ (i : Int) ∈ l) := by
  intro l
  induction l with
  | nil =>
    intro a m h i
    simp only [List.foldl_nil, Option.some.injEq] at h
    subst h
    simp
  | cons c cs ih =>
    intro a m h i
    by_cases hc : 0 ≤ c
    · simp only [List.foldl_cons, Option.some_bind, if_pos hc] at h
      have := ih (a ||| (1 <<< c.toNat)) m h i
      rw [this, Nat.testBit_or, Nat.one_shiftLeft, Nat.testBit_two_pow]
      have hcast : (c.toNat = i) ↔ ((i : Int) = c) := by omega
      constructor
      · rintro (hb | hm)
        · rcases Bool.or_eq_true_iff.mp hb with hb1 | hb2
          · exact Or.inl hb1
          · exact Or.inr (by simp [List.mem_cons, hcast.mp (of_decide_eq_true hb2)])
        · exact Or.inr (by simp [List.mem_cons, hm])
      · rintro (hb | hm)
        · exact Or.inl (by simp [hb])
        · rcases List.mem_cons.mp hm with h1 | h2
          · exact Or.inl (by simp [decide_eq_true (hcast.mpr h1)])
          · exact Or.inr h2
    · simp only [List.foldl_cons, Option.some_bind, if_neg hc] at h
      rw [list_to_mask_fold_none] at h
      cases h

theorem list_to_mask_bits {l : List Int} {m : Nat}
    (h : list_to_mask l = some m) :
    ∀ i : Nat, m.testBit i = true ↔ (i : Int) ∈ l := by
  intro i
  have := list_to_mask_fold_bits l 0 m h i
  simpa using this

theorem mem_maskToListGo :
    ∀ (fuel mask cc : Nat) (x : Int), mask ≤ fuel →
      (x ∈ maskToListGo fuel mask cc ↔
        ∃ j : Nat, mask.testBit j = true ∧ x = ((cc + j : Nat) : Int)) := by
  intro fuel
  induction fuel with
  | zero =>
    intro mask cc x h
    interval_cases mask
    simp [maskToListGo]
  | succ f ih =>
    intro mask cc x h
    by_cases hm : mask = 0
    · subst hm
      simp [maskToListGo]
    · simp only [maskToListGo, if_neg hm]
      constructor
      · intro hx
        rcases List.mem_append.mp hx with h1 | h2
        · by_cases hb : mask % 2 = 1
          · rw [if_pos hb] at h1
            simp only [List.mem_singleton] at h1
            exact ⟨0, by simp [Nat.testBit_zero, hb], by simpa using h1⟩
          · rw [if_neg hb] at h1
            simp at h1
        · obtain ⟨j, hj, hxj⟩ := (ih (mask / 2) (cc + 1) x (by omega)).mp h2
          refine ⟨j + 1, ?_, ?_⟩
          · rwa [Nat.testBit_succ]
          · rw [hxj]; push_cast; ring
      · rintro ⟨j, hj, rfl⟩
        cases j with
        | zero =>
          rw [Nat.testBit_zero] at hj
          apply List.mem_append_left
          rw [if_pos (of_decide_eq_true hj)]
          simp
        | succ k =>
          apply List.mem_append_right
          refine (ih (mask / 2) (cc + 1) _ (by omega)).mpr ⟨k, ?_, ?_⟩
          · rwa [Nat.testBit_succ] at hj
          · push_cast; ring

theorem mem_mask_to_list (mask : Nat) (i : Nat) :
    (i : Int) ∈ mask_to_list mask ↔ mask.testBit i = true := by
  unfold mask_to_list
  rw [mem_maskToListGo mask mask 0 (i : Int) le_rfl]
  constructor
  · rintro ⟨j, hj, hij⟩
    have : i = j := by omega
    rwa [this]
  · intro hi
    exact ⟨i, hi, by simp⟩

/-- **C5 counterexample**: a `CPUSpec` built from the explicit list
`[3,3]` keeps the duplicate — its `cpu_list` is `[3,3]`, which is sorted
but not duplicate-free, refuting the claim that the normalized list is
always sorted *and unique*. -/
theorem C5_counterexample :
    (CPUSpec.init ['x'] none (some [3, 3]) none none false).map (fun r => r.cpu_list) =
      some [3, 3] ∧ ¬ ([3, 3] : List Int).Nodup := by
  constructor
  · decide
  · decide

/-- **C5 amended** (proved): `CPUSpec.__init__` fails unless exactly one of
`str_spec`, `cpu_list`, `mask` is given; on success the stored `cpu_list`
is the decoded source list *sorted but with duplicates retained* (a
permutation of the decoded list), and the stored mask has bit `i` set iff
CPU `i` is in the list; for a mask source the derived mask equals the
input mask. -/
theorem C5_cpuspec_normalization :
    (∀ (n : List Char) (mem : Option (List Int)) (nb : Bool),
       CPUSpec.init n none none mem none nb = none) ∧
    (∀ (n s : List Char) (l : List Int) (mem : Option (List Int)) (nb : Bool),
       CPUSpec.init n (some s) (some l) mem none nb = none) ∧
    (∀ (n s : List Char) (m : Nat) (mem : Option (List Int)) (nb : Bool),
       CPUSpec.init n (some s) none mem (some m) nb = none) ∧
    (∀ (n : List Char) (l : List Int) (m : Nat) (mem : Option (List Int)) (nb : Bool),
       CPUSpec.init n none (some l) mem (some m) nb = none) ∧
    (∀ (n s : List Char) (l : List Int) (m : Nat) (mem : Option (List Int)) (nb : Bool),
       CPUSpec.init n (some s) (some l) mem (some m) nb = none) ∧
    (∀ (n : List Char) (l : List Int) (mem : Option (List Int)) (nb : Bool) (r : CPUSpecRec),
       CPUSpec.init n none (some l) mem none nb = some r →
       r.cpu_list.Sorted (· ≤ ·) ∧ r.cpu_list.Perm l ∧
       (∀ i : Nat, r.mask.testBit i = true ↔ (i : Int) ∈ r.cpu_list)) ∧
    (∀ (n s : List Char) (mem : Option (List Int)) (nb : Bool) (r : CPUSpecRec),
       CPUSpec.init n (some s) none mem none nb = some r →
       ∃ pl, range_to_list s = some pl ∧ r.cpu_list.Sorted (· ≤ ·) ∧ r.cpu_list.Perm pl ∧
         (∀ i : Nat, r.mask.testBit i = true ↔ (i : Int) ∈ r.cpu_list)) ∧
    (∀ (n : List Char) (m : Nat) (mem : Option (List Int)) (nb : Bool) (r : CPUSpecRec),
       CPUSpec.init n none none mem (some m) nb = some r →
       r.cpu_list.Sorted (· ≤ ·) ∧ r.cpu_list.Perm (mask_to_list m) ∧ r.mask = m ∧
         (∀ i : Nat, r.mask.testBit i = true ↔ (i : Int) ∈ r.cpu_list)) := by
  refine ⟨fun n mem nb => rfl, fun n s l mem nb => rfl, fun n s m mem nb => rfl,
    fun n l m mem nb => rfl, fun n s l m mem nb => rfl, ?_, ?_, ?_⟩
  · intro n l mem nb r hr
    unfold CPUSpec.init at hr
    rw [if_pos (by simp)] at hr
    cases hm : list_to_mask (l.insertionSort (· ≤ ·)) with
    | none => simp [hm] at hr
    | some mval =>
      simp only [hm, Option.some_bind, Option.map_some', Option.map_some, Option.some.injEq] at hr
      subst hr
      refine ⟨List.sorted_insertionSort _ l, List.perm_insertionSort _ l, ?_⟩
      intro i
      exact list_to_mask_bits hm i
  · intro n s mem nb r hr
    unfold CPUSpec.init at hr
    rw [if_pos (by simp)] at hr
    cases hs : range_to_list s with
    | none => simp [hs] at hr
    | some pl =>
      cases hm : list_to_mask (pl.insertionSort (· ≤ ·)) with
      | none => simp [hs, hm] at hr
      | some mval =>
        simp only [hs, hm, Option.some_bind, Option.map_some', Option.map_some, Option.some.injEq] at hr
        subst hr
        exact ⟨pl, rfl, List.sorted_insertionSort _ pl, List.perm_insertionSort _ pl,
          fun i => list_to_mask_bits hm i⟩
  · intro n m mem nb r hr
    unfold CPUSpec.init at hr
    rw [if_pos (by simp)] at hr
    cases hm : list_to_mask ((mask_to_list m).insertionSort (· ≤ ·)) with
    | none => simp [hm] at hr
    | some mval =>
      simp only [hm, Option.some_bind, Option.map_some', Option.map_some, Option.some.injEq] at hr
      subst hr
      have hbits : ∀ i : Nat, mval.testBit i = true ↔ (i : Int) ∈
          (mask_to_list m).insertionSort (· ≤ ·) := fun i => list_to_mask_bits hm i
      have hmem : ∀ i : Nat, ((i : Int) ∈ (mask_to_list m).insertionSort (· ≤ ·)) ↔
          (i : Int) ∈ mask_to_list m :=
        fun i => (List.perm_insertionSort _ (mask_to_list m)).mem_iff
      have heq : mval = m := by
        apply Nat.eq_of_testBit_eq
        intro i
        have h1 := (hbits i).trans ((hmem i).trans (mem_mask_to_list m i))
        cases hb1 : mval.testBit i <;> cases hb2 : m.testBit i <;> simp_all
      refine ⟨List.sorted_insertionSort _ _, List.perm_insertionSort _ _, heq, ?_⟩
      intro i
      exact list_to_mask_bits hm i

/-- Witness for C5 at the concrete duplicate-carrying list `[3,1,3]`. -/
theorem C5_witness :
    CPUSpec.init ['x'] none (some [3, 1, 3]) none none false =
      some { name := ['x'], cpu_list := [1, 3, 3], mask := 10 } ∧
    (({ name := ['x'], cpu_list := [1, 3, 3], mask := 10 } : CPUSpecRec)).cpu_list.Sorted (· ≤ ·) ∧
    (({ name := ['x'], cpu_list := [1, 3, 3], mask := 10 } : CPUSpecRec)).cpu_list.Perm [3, 1, 3] ∧
    ((10 : Nat).testBit 3 = true ↔ (3 : Int) ∈ ([1, 3, 3] : List Int)) := by
  have h := (C5_cpuspec_normalization.2.2.2.2.2.1) ['x'] [3, 1, 3] none false
    { name := ['x'], cpu_list := [1, 3, 3], mask := 10 } (by decide)
  exact ⟨by decide, h.1, h.2.1, by simpa using h.2.2 3⟩

/-! ## Claim C4: IRQ/PCI correlation tie-break -/

theorem pyStrLt_asymm : ∀ a b : List Char, pyStrLt a b = true → pyStrLt b a = false := by
  intro a
  induction a with
  | nil =>
    intro b h
    cases b with
    | nil => simp [pyStrLt] at h
    | cons x xs => simp [pyStrLt]
  | cons c cs ih =>
    intro b h
    cases b with
    | nil => simp [pyStrLt] at h
    | cons x xs =>
      unfold pyStrLt at h ⊢
      by_cases h1 : c.toNat < x.toNat
      · rw [if_neg (by omega : ¬ x.toNat < c.toNat), if_pos h1]
      · rw [if_neg h1] at h
        by_cases h2 : x.toNat < c.toNat
        · rw [if_pos h2] at h
          cases h
        · rw [if_neg h2] at h
          rw [if_neg h2, if_neg h1]
          exact ih xs h

theorem pyStrLt_irrefl (a : List Char) : pyStrLt a a = false := by
  cases h : pyStrLt a a
  · rfl
  · have h2 := pyStrLt_asymm a a h
    rw [h2] at h
    cases h

/-- The per-key effect of one claimant on the `reverse_lookup` entry:
first claimant wins unless a later one has a strictly greater address. -/
def devClaimCombine (dev : PCIDeviceRec) : Option PCIDeviceRec → Option PCIDeviceRec
  | none => some dev
  | some prev => if pyStrLt prev.pci_addr dev.pci_addr then some dev else some prev

theorem devClaimCombine_idem (dev : PCIDeviceRec) (o : Option PCIDeviceRec) :
    devClaimCombine dev (devClaimCombine dev o) = devClaimCombine dev o := by
  cases o with
  | none => simp [devClaimCombine, pyStrLt_irrefl]
  | some p =>
    by_cases h : pyStrLt p.pci_addr dev.pci_addr = true
    · simp [devClaimCombine, h, pyStrLt_irrefl]
    · simp [devClaimCombine, h]

theorem claim_fold_get :
    ∀ (l : List Int) (dev : PCIDeviceRec) (lookup : List (Int × PCIDeviceRec)) (n : Int),
      assocGet
        (l.foldl
          (fun lookup pci_irq =>
            match assocGet lookup pci_irq with
            | none => assocSet lookup pci_irq dev
            | some prev =>
              if pyStrLt prev.pci_addr dev.pci_addr then assocSet lookup pci_irq dev
              else lookup)
          lookup) n =
      if n ∈ l then devClaimCombine dev (assocGet lookup n) else assocGet lookup n := by
  intro l
  induction l with
  | nil => intro dev lookup n; simp
  | cons x xs ih =>
    intro dev lookup n
    rw [List.foldl_cons]
    have hstep : ∀ m : Int,
        assocGet
          (match assocGet lookup x with
           | none => assocSet lookup x dev
           | some prev =>
             if pyStrLt prev.pci_addr dev.pci_addr then assocSet lookup x dev
             else lookup) m =
        if m = x then devClaimCombine dev (assocGet lookup x) else assocGet lookup m := by
      intro m
      cases hg : assocGet lookup x with
      | none =>
        simp only [hg, devClaimCombine]
        by_cases hm : m = x
        · subst hm
          rw [if_pos rfl]
          exact assocGet_assocSet_self lookup m dev
        · rw [if_neg hm]
          exact assocGet_assocSet_ne lookup x m dev hm
      | some prev =>
        simp only [hg, devClaimCombine]
        by_cases hlt : pyStrLt prev.pci_addr dev.pci_addr = true
        · rw [if_pos hlt, if_pos hlt]
          by_cases hm : m = x
          · subst hm
            rw [if_pos rfl]
            exact assocGet_assocSet_self lookup m dev
          · rw [if_neg hm]
            exact assocGet_assocSet_ne lookup x m dev hm
        · rw [if_neg hlt, if_neg hlt]
          by_cases hm : m = x
          · subst hm
            rw [if_pos rfl]
            exact hg
          · rw [if_neg hm]
    rw [ih, hstep n]
    by_cases hx : n = x
    · subst hx
      by_cases hmem : n ∈ xs
      · rw [if_pos hmem, if_pos rfl, if_pos (List.mem_cons_self n xs)]
        exact devClaimCombine_idem dev _
      · rw [if_neg hmem, if_pos rfl, if_pos (List.mem_cons_self n xs)]
    · by_cases hmem : n ∈ xs
      · rw [if_pos hmem, if_neg hx, if_pos (List.mem_cons_of_mem x hmem)]
      · have hnotc : ¬ n ∈ x :: xs := by
          intro hcc
          rcases List.mem_cons.mp hcc with h1 | h1
          · exact hx h1
          · exact hmem h1
        rw [if_neg hmem, if_neg hx, if_neg hnotc]

theorem matchIrqPciLookup_get (devs : List PCIDeviceRec) (n : Int) :
    assocGet (matchIrqPciLookup devs) n =
      devs.foldl
        (fun o dev => if n ∈ dev.irq_list then devClaimCombine dev o else o) none := by
  unfold matchIrqPciLookup
  suffices h : ∀ (ds : List PCIDeviceRec) (lookup : List (Int × PCIDeviceRec)),
      assocGet (ds.foldl (fun lookup dev => claimIrqNumbers dev lookup) lookup) n =
        ds.foldl (fun o dev => if n ∈ dev.irq_list then devClaimCombine dev o else o)
          (assocGet lookup n) by
    rw [h devs []]
    rfl
  intro ds
  induction ds with
  | nil => intro lookup; rfl
  | cons dev rest ih =>
    intro lookup
    rw [List.foldl_cons, List.foldl_cons, ih]
    unfold claimIrqNumbers
    rw [claim_fold_get]

theorem devClaimCombine_absorb (d : PCIDeviceRec) (o : Option PCIDeviceRec)
    (ho : o = none ∨ o = some d ∨
      ∃ p, o = some p ∧ pyStrLt p.pci_addr d.pci_addr = true) :
    devClaimCombine d o = some d := by
  rcases ho with rfl | rfl | ⟨p, rfl, hlt⟩
  · rfl
  · simp [devClaimCombine, pyStrLt_irrefl]
  · simp [devClaimCombine, hlt]

theorem devClaimCombine_preserve (d dev : PCIDeviceRec) (o : Option PCIDeviceRec)
    (hlt : pyStrLt dev.pci_addr d.pci_addr = true)
    (ho : o = none ∨ o = some d ∨
      ∃ p, o = some p ∧ pyStrLt p.pci_addr d.pci_addr = true) :
    devClaimCombine dev o = some d ∨
      ∃ p, devClaimCombine dev o = some p ∧ pyStrLt p.pci_addr d.pci_addr = true := by
  rcases ho with rfl | rfl | ⟨p, rfl, hp⟩
  · exact Or.inr ⟨dev, rfl, hlt⟩
  · simp only [devClaimCombine]
    rw [if_neg (by simp [pyStrLt_asymm _ _ hlt])]
    exact Or.inl rfl
  · simp only [devClaimCombine]
    by_cases hpd : pyStrLt p.pci_addr dev.pci_addr = true
    · rw [if_pos hpd]
      exact Or.inr ⟨dev, rfl, hlt⟩
    · rw [if_neg hpd]
      exact Or.inr ⟨p, rfl, hp⟩

theorem claim_fold_max (d : PCIDeviceRec) (n : Int) (hn : n ∈ d.irq_list) :
    ∀ (devs : List PCIDeviceRec) (o : Option PCIDeviceRec),
      (∀ d' ∈ devs, n ∈ d'.irq_list → d' = d ∨ pyStrLt d'.pci_addr d.pci_addr = true) →
      (o = none ∨ o = some d ∨
        ∃ p, o = some p ∧ pyStrLt p.pci_addr d.pci_addr = true) →
      (d ∈ devs ∨ o = some d) →
      devs.foldl (fun o dev => if n ∈ dev.irq_list then devClaimCombine dev o else o) o =
        some d := by
  intro devs
  induction devs with
  | nil =>
    intro o _ _ hpos
    rcases hpos with h | h
    · simp at h
    · simpa using h
  | cons dev rest ih =>
    intro o hmax ho hpos
    rw [List.foldl_cons]
    by_cases hclaim : n ∈ dev.irq_list
    · rw [if_pos hclaim]
      rcases hmax dev (by simp) hclaim with rfl | hlt
      · exact ih (devClaimCombine dev o)
          (fun d' hd' h' => hmax d' (List.mem_cons_of_mem dev hd') h')
          (Or.inr (Or.inl (devClaimCombine_absorb dev o ho)))
          (Or.inr (devClaimCombine_absorb dev o ho))
      · have hne : dev ≠ d := by
          intro e
          rw [e, pyStrLt_irrefl] at hlt
          cases hlt
        refine ih (devClaimCombine dev o)
          (fun d' hd' h' => hmax d' (List.mem_cons_of_mem dev hd') h') ?_ ?_
        · rcases devClaimCombine_preserve d dev o hlt ho with h | h
          · exact Or.inr (Or.inl h)
          · exact Or.inr (Or.inr h)
        · rcases hpos with h | h
          · rcases List.mem_cons.mp h with h1 | h1
            · exact absurd h1.symm hne
            · exact Or.inl h1
          · refine Or.inr ?_
            rw [h]
            simp only [devClaimCombine]
            rw [if_neg (by simp [pyStrLt_asymm _ _ hlt])]
    · rw [if_neg hclaim]
      have hne : dev ≠ d := by
        intro e
        rw [e] at hclaim
        exact hclaim hn
      refine ih o (fun d' hd' h' => hmax d' (List.mem_cons_of_mem dev hd') h') ho ?_
      rcases hpos with h | h
      · rcases List.mem_cons.mp h with h1 | h1
        · exact absurd h1.symm hne
        · exact Or.inl h1
      · exact Or.inr h

theorem matchIrqPciLookup_max (devs : List PCIDeviceRec) (d : PCIDeviceRec) (n : Int)
    (hd : d ∈ devs) (hn : n ∈ d.irq_list)
    (hmax : ∀ d' ∈ devs, n ∈ d'.irq_list → d' = d ∨ pyStrLt d'.pci_addr d.pci_addr = true) :
    assocGet (matchIrqPciLookup devs) n = some d := by
  rw [matchIrqPciLookup_get]
  exact claim_fold_max d n hn devs none hmax (Or.inl rfl) (Or.inl hd)

/-- **C4** (confirmed): when the raw interrupt number of a tracked IRQ is
claimed by several PCI devices, `match_irq_and_pci` attaches the claimant
with the (strictly) lexicographically greatest bus address and copies that
device's NUMA node into the IRQ's preferred node. -/
theorem C4_irq_pci_tiebreak (irqs : List IRQRec) (devs : List PCIDeviceRec)
    (d : PCIDeviceRec) (i : Nat) (irq : IRQRec)
    (hd : d ∈ devs) (hn : irq.id ∈ d.irq_list)
    (hmax : ∀ d' ∈ devs, irq.id ∈ d'.irq_list →
      d' = d ∨ pyStrLt d'.pci_addr d.pci_addr = true)
    (hirq : irqs.get? i = some irq) :
    (match_irq_and_pci irqs devs).get? i =
      some { irq with pci_device := some d, best_node := d.numa_node } := by
  unfold match_irq_and_pci
  rw [List.get?_map, hirq, Option.map_some']
  rw [matchIrqPciLookup_max devs d irq.id hd hn hmax]
  rfl

/-- Witness for C4: devices at `0000:01:00.0` and `0000:02:00.0` both
claim IRQ 42; the IRQ resolves to `0000:02:00.0` and inherits its NUMA node. -/
theorem C4_witness :
    (match_irq_and_pci [{ id := 42, counts := [0], counts_hz := [0] }]
        [{ pci_addr := ['0','0','0','0',':','0','1',':','0','0','.','0'],
           irq_type := IRQ_TYPE.LEGACY, irq_list := [42], cpu_set := [0], numa_node := 0 },
         { pci_addr := ['0','0','0','0',':','0','2',':','0','0','.','0'],
           irq_type := IRQ_TYPE.LEGACY, irq_list := [42], cpu_set := [4], numa_node := 1 }]).get? 0 =
      some { id := 42, counts := [0], counts_hz := [0],
             pci_device := some
               { pci_addr := ['0','0','0','0',':','0','2',':','0','0','.','0'],
                 irq_type := IRQ_TYPE.LEGACY, irq_list := [42], cpu_set := [4], numa_node := 1 },
             best_node := 1 } :=
  C4_irq_pci_tiebreak [{ id := 42, counts := [0], counts_hz := [0] }]
    [{ pci_addr := ['0','0','0','0',':','0','1',':','0','0','.','0'],
       irq_type := IRQ_TYPE.LEGACY, irq_list := [42], cpu_set := [0], numa_node := 0 },
     { pci_addr := ['0','0','0','0',':','0','2',':','0','0','.','0'],
       irq_type := IRQ_TYPE.LEGACY, irq_list := [42], cpu_set := [4], numa_node := 1 }]
    { pci_addr := ['0','0','0','0',':','0','2',':','0','0','.','0'],
      irq_type := IRQ_TYPE.LEGACY, irq_list := [42], cpu_set := [4], numa_node := 1 }
    0 { id := 42, counts := [0], counts_hz := [0] }
    (by decide) (by decide) (by decide) rfl

/-! ## Claim C2: range-notation round trip

Proof-layer vocabulary: a sorted-unique list decomposes into maximal
consecutive runs; `tokensList` mirrors the tokens the serializer's fold
emits, `runList a b` is the run `[a, a+1, ..., b]`. -/

/-- The inclusive run `[a, ..., b]` of integers. -/
def runList (a b : Int) : List Int :=
  (List.range (b + 1 - a).toNat).map (fun k : Nat => a + (k : Int))

/-- The token the serializer emits for the run `[a, ..., b]` (without its
leading comma). -/
def tokenCore (a b : Int) : List Char :=
  if a = b then intRepr a else intRepr a ++ '-' :: intRepr b

/-- The comma-less tokens the serializer's fold emits for a pending run
`[a..b]` followed by the remaining sorted input. -/
def tokensList (a b : Int) : List Int → List (List Char)
  | [] => [tokenCore a b]
  | c :: rest =>
    if c = b + 1 then tokensList a c rest
    else tokenCore a b :: tokensList c c rest

/-- Comma-prefixed concatenation, as built by the serializer's fold. -/
def commaJoin (ts : List (List Char)) : List Char :=
  (ts.map (fun t => ',' :: t)).join

theorem runList_self (a : Int) : runList a a = [a] := by
  unfold runList
  have h1 : (a + 1 - a).toNat = 1 := by omega
  rw [h1]
  rw [show List.range 1 = [0] from rfl]
  norm_num

theorem runList_length (a b : Int) : (runList a b).length = (b + 1 - a).toNat := by
  simp [runList]

theorem runList_ne_nil {a b : Int} (h : a ≤ b) : runList a b ≠ [] := by
  intro he
  have := runList_length a b
  rw [he] at this
  simp at this
  omega

theorem runList_isEmpty {a b : Int} (h : a ≤ b) : (runList a b).isEmpty = false := by
  rw [List.isEmpty_eq_false]
  exact runList_ne_nil h

theorem runList_headD {a b : Int} (h : a ≤ b) : (runList a b).headD 0 = a := by
  unfold runList
  have h1 : (b + 1 - a).toNat = ((b - a).toNat) + 1 := by omega
  rw [h1, List.range_succ_eq_map]
  simp

theorem runList_append {a b : Int} (h : a ≤ b + 1) :
    runList a (b + 1) = runList a b ++ [b + 1] := by
  unfold runList
  have h1 : (b + 1 + 1 - a).toNat = (b + 1 - a).toNat + 1 := by omega
  rw [h1, List.range_succ, List.map_append]
  simp only [List.map_cons, List.map_nil]
  congr 2
  omega

theorem runList_getLastD {a b : Int} (h : a ≤ b) : (runList a b).getLastD 0 = b := by
  have key : ∀ (n : Nat) (b : Int), a ≤ b → (b - a).toNat = n →
      (runList a b).getLastD 0 = b := by
    intro n
    induction n with
    | zero =>
      intro b hab hn
      have : a = b := by omega
      subst this
      rw [runList_self]
      rfl
    | succ m ih =>
      intro b hab hn
      have hb : b = (b - 1) + 1 := by ring
      rw [hb, runList_append (by omega)]
      simp
  exact key (b - a).toNat b h rfl

theorem runList_length_one {a b : Int} (h : a ≤ b) :
    ((runList a b).length = 1) ↔ a = b := by
  rw [runList_length]
  omega

theorem commaJoin_nil : commaJoin [] = [] := rfl

theorem commaJoin_cons (t : List Char) (ts : List (List Char)) :
    commaJoin (t :: ts) = ',' :: (t ++ commaJoin ts) := by
  simp [commaJoin]

/-- One flush step of the serializer on a pending run `[a..b]`. -/
theorem ltrnStep_run {a b : Int} (hab : a ≤ b) (s : List Char) (c : Int) :
    ltrnStep (runList a b, s) c =
      if c = b + 1 then (runList a b ++ [c], s)
      else ([c], s ++ ',' :: tokenCore a b) := by
  unfold ltrnStep
  simp only [runList_isEmpty hab, runList_getLastD hab, runList_headD hab]
  rw [if_neg (by simp)]
  by_cases hcb : c = b + 1
  · rw [if_pos hcb, if_pos hcb]
  · rw [if_neg hcb, if_neg hcb]
    unfold tokenCore
    by_cases he : a = b
    · rw [if_pos ((runList_length_one hab).mpr he), if_pos he]
    · rw [if_neg (fun hl => he ((runList_length_one hab).mp hl)), if_neg he]
      simp

/-- The serializer's fold over the rest of a sorted input, starting with a
pending run `[a..b]`, flushes exactly the run tokens. -/
theorem ltrn_fold_runs :
    ∀ (rest : List Int) (a b : Int) (s : List Char),
      0 ≤ a → a ≤ b → rest.Sorted (· < ·) → (∀ x ∈ rest, b < x) →
      (rest ++ [-1]).foldl ltrnStep (runList a b, s) =
        ([-1], s ++ commaJoin (tokensList a b rest)) := by
  intro rest
  induction rest with
  | nil =>
    intro a b s ha hab _ _
    simp only [List.nil_append, List.foldl_cons, List.foldl_nil]
    rw [ltrnStep_run hab, if_neg (by omega : ¬ (-1 : Int) = b + 1)]
    unfold tokensList
    rw [commaJoin_cons, commaJoin_nil, List.append_nil]
  | cons c rest' ih =>
    intro a b s ha hab hsort hgt
    have hc : b < c := hgt c (by simp)
    obtain ⟨hgt', hsort'⟩ := List.sorted_cons.mp hsort
    rw [List.cons_append, List.foldl_cons, ltrnStep_run hab]
    by_cases hcb : c = b + 1
    · subst hcb
      rw [if_pos rfl, ← runList_append (by omega)]
      rw [ih a (b + 1) s ha (by omega) hsort' (fun x hx => hgt' x hx)]
      conv_rhs => rw [tokensList]
      rw [if_pos rfl]
    · rw [if_neg hcb]
      have hc0 : (0 : Int) ≤ c := by omega
      have hrun : ([c], s ++ ',' :: tokenCore a b) =
          ((runList c c, s ++ ',' :: tokenCore a b) :
            List Int × List Char) := by
        rw [runList_self]
      rw [hrun, ih c c (s ++ ',' :: tokenCore a b) hc0 le_rfl hsort'
        (fun x hx => hgt' x hx)]
      conv_rhs => rw [tokensList]
      rw [if_neg hcb, commaJoin_cons]
      simp

theorem ltrn_nil : list_to_range_notation [] = some [] := by decide

theorem ltrn_cons {x : Int} {xs : List Int} (hs : (x :: xs).Sorted (· < ·))
    (hn : ∀ y ∈ x :: xs, 0 ≤ y) :
    list_to_range_notation (x :: xs) =
      some ((commaJoin (tokensList x x xs)).drop 1) := by
  have hsle : (x :: xs).Sorted (· ≤ ·) := hs.imp (fun h => le_of_lt h)
  have h1 : ltrnStep ([], []) x = ([x], []) := by
    simp [ltrnStep]
  have h2 : (([x], []) : List Int × List Char) = (runList x x, []) := by
    rw [runList_self]
  obtain ⟨hgt, hsort'⟩ := List.sorted_cons.mp hs
  unfold list_to_range_notation
  simp only [List.Sorted.insertionSort_eq hsle, List.cons_append, List.foldl_cons,
    h1, h2, ltrn_fold_runs xs x x [] (hn x (by simp)) le_rfl hsort' hgt]
  simp

theorem tokensList_ne_nil : ∀ (rest : List Int) (a b : Int),
    tokensList a b rest ≠ [] := by
  intro rest
  induction rest with
  | nil => intro a b; simp [tokensList]
  | cons c rest' ih =>
    intro a b
    unfold tokensList
    split
    · exact ih a c
    · simp

theorem tokensList_shape :
    ∀ (rest : List Int) (a b : Int), 0 ≤ a → a ≤ b →
      rest.Sorted (· < ·) → (∀ x ∈ rest, b < x) →
      ∀ t ∈ tokensList a b rest, ∃ a' b', 0 ≤ a' ∧ a' ≤ b' ∧ t = tokenCore a' b' := by
  intro rest
  induction rest with
  | nil =>
    intro a b ha hab _ _ t ht
    simp only [tokensList, List.mem_singleton] at ht
    exact ⟨a, b, ha, hab, ht⟩
  | cons c rest' ih =>
    intro a b ha hab hsort hgt t ht
    have hc : b < c := hgt c (by simp)
    obtain ⟨hgt', hsort'⟩ := List.sorted_cons.mp hsort
    unfold tokensList at ht
    by_cases hcb : c = b + 1
    · rw [if_pos hcb] at ht
      subst hcb
      exact ih a (b + 1) ha (by omega) hsort' (fun x hx => hgt' x hx) t ht
    · rw [if_neg hcb] at ht
      rcases List.mem_cons.mp ht with h1 | h1
      · exact ⟨a, b, ha, hab, h1⟩
      · exact ih c c (by omega) le_rfl hsort' (fun x hx => hgt' x hx) t h1

theorem tokenCore_ne_nil {a b : Int} (h0 : 0 ≤ a) :
    tokenCore a b ≠ [] := by
  unfold tokenCore
  split
  · unfold intRepr
    rw [if_neg (by omega)]
    exact natRepr_ne_nil _
  · intro h
    have : intRepr a = [] ∧ ('-' :: intRepr b) = [] := List.append_eq_nil.mp h
    cases this.2

theorem tokenCore_no_comma {a b : Int} (h0 : 0 ≤ a) (hab : a ≤ b) :
    ∀ ch ∈ tokenCore a b, ch ≠ ',' := by
  intro ch hch
  unfold tokenCore at hch
  split at hch
  · exact (mem_intRepr_nonneg h0 ch hch).2
  · rcases List.mem_append.mp hch with h1 | h1
    · exact (mem_intRepr_nonneg h0 ch h1).2
    · rcases List.mem_cons.mp h1 with h2 | h2
      · rw [h2]; decide
      · exact (mem_intRepr_nonneg (by omega) ch h2).2

theorem splitOnChar_no_sep {sep : Char} {s : List Char}
    (h : ∀ c ∈ s, c ≠ sep) : splitOnChar sep s = [s] := by
  have := splitOnChar_append sep s [] h
  simpa [splitOnChar] using this

theorem splitOnChar_commaJoin :
    ∀ (ts : List (List Char)) (t : List Char),
      (∀ ch ∈ t, ch ≠ ',') → (∀ u ∈ ts, ∀ ch ∈ u, ch ≠ ',') →
      splitOnChar ',' (t ++ commaJoin ts) = t :: ts := by
  intro ts
  induction ts with
  | nil =>
    intro t ht _
    rw [commaJoin_nil, List.append_nil]
    exact splitOnChar_no_sep ht
  | cons u ts' ih =>
    intro t ht hts
    rw [commaJoin_cons]
    rw [splitOnChar_append ',' t (',' :: (u ++ commaJoin ts')) ht]
    rw [splitOnChar_cons_sep]
    rw [ih u (hts u (by simp)) (fun v hv => hts v (by simp [hv]))]
    simp

theorem parseNat_intRepr_exists {i : Int} (h : 0 ≤ i) :
    ∃ n : Nat, parseNat (intRepr i) = some n ∧ (n : Int) = i := by
  have hm := parseNat_intRepr h
  cases hp : parseNat (intRepr i) with
  | none => rw [hp] at hm; cases hm
  | some n =>
    rw [hp] at hm
    exact ⟨n, rfl, by simpa using hm⟩

theorem runList_eq_range' {a b : Int} {na nb : Nat}
    (hna : (na : Int) = a) (hnb : (nb : Int) = b) :
    (List.range' na (nb + 1 - na)).map (fun n : Nat => (n : Int)) = runList a b := by
  unfold runList
  rw [List.range'_eq_map_range, List.map_map]
  have hm : nb + 1 - na = (b + 1 - a).toNat := by omega
  rw [hm]
  apply List.map_congr_left
  intro k _
  show ((na + k : Nat) : Int) = a + (k : Int)
  omega

theorem intRepr_not_contains_dash {i : Int} (h : 0 ≤ i) :
    (intRepr i).contains '-' = false := by
  cases hc : (intRepr i).contains '-'
  · rfl
  · exact absurd rfl (mem_intRepr_nonneg h '-' (List.mem_of_elem_eq_true hc)).1

theorem parseRangeToken_tokenCore {a b : Int} (h0 : 0 ≤ a) (hab : a ≤ b) :
    parseRangeToken (tokenCore a b) = some (runList a b) := by
  by_cases he : a = b
  · subst he
    unfold tokenCore parseRangeToken
    have hnc : ¬ ((intRepr a).contains '-' = true) := by
      rw [intRepr_not_contains_dash h0]
      exact Bool.false_ne_true
    rw [if_pos rfl, if_neg hnc]
    obtain ⟨n, hn, hni⟩ := parseNat_intRepr_exists h0
    rw [hn, runList_self]
    simp [hni]
  · have hb0 : (0 : Int) ≤ b := le_trans h0 hab
    unfold tokenCore parseRangeToken
    rw [if_neg he]
    have hdash : (intRepr a ++ '-' :: intRepr b).contains '-' = true := by
      exact List.elem_eq_true_of_mem (by simp)
    rw [if_pos hdash]
    have hsplit : splitOnChar '-' (intRepr a ++ '-' :: intRepr b) =
        [intRepr a, intRepr b] := by
      rw [splitOnChar_append '-' (intRepr a) ('-' :: intRepr b)
        (fun c hc => (mem_intRepr_nonneg h0 c hc).1)]
      rw [splitOnChar_cons_sep]
      rw [splitOnChar_no_sep (fun c hc => (mem_intRepr_nonneg hb0 c hc).1)]
      simp
    simp only [hsplit]
    obtain ⟨na, hna, hnai⟩ := parseNat_intRepr_exists h0
    obtain ⟨nb, hnb, hnbi⟩ := parseNat_intRepr_exists hb0
    simp only [hna, hnb]
    rw [if_pos (by omega : na ≤ nb)]
    rw [show ((List.range' na (nb + 1 - na)).map (fun n : Nat => (n : Int))) =
      runList a b from runList_eq_range' hnai hnbi]

theorem parseTokens_tokensList :
    ∀ (rest : List Int) (a b : Int), 0 ≤ a → a ≤ b →
      rest.Sorted (· < ·) → (∀ x ∈ rest, b < x) →
      parseTokens (tokensList a b rest) = some (runList a b ++ rest) := by
  intro rest
  induction rest with
  | nil =>
    intro a b ha hab _ _
    unfold tokensList parseTokens parseTokens
    rw [parseRangeToken_tokenCore ha hab]
    simp
  | cons c rest' ih =>
    intro a b ha hab hsort hgt
    have hc : b < c := hgt c (by simp)
    obtain ⟨hgt', hsort'⟩ := List.sorted_cons.mp hsort
    unfold tokensList
    by_cases hcb : c = b + 1
    · rw [if_pos hcb]
      subst hcb
      rw [ih a (b + 1) ha (by omega) hsort' (fun x hx => hgt' x hx)]
      rw [runList_append (by omega)]
      simp
    · rw [if_neg hcb]
      unfold parseTokens
      rw [parseRangeToken_tokenCore ha hab]
      rw [ih c c (by omega) le_rfl hsort' (fun x hx => hgt' x hx)]
      rw [runList_self]
      simp

theorem range_to_list_serialized {x : Int} {xs : List Int}
    (hs : (x :: xs).Sorted (· < ·)) (hn : ∀ y ∈ x :: xs, 0 ≤ y) :
    range_to_list ((commaJoin (tokensList x x xs)).drop 1) = some (x :: xs) := by
  obtain ⟨hgt, hsort'⟩ := List.sorted_cons.mp hs
  have hx0 : (0 : Int) ≤ x := hn x (by simp)
  have hshape := tokensList_shape xs x x hx0 le_rfl hsort' hgt
  cases hT : tokensList x x xs with
  | nil => exact absurd hT (tokensList_ne_nil xs x x)
  | cons t ts =>
    rw [hT] at hshape
    obtain ⟨a', b', ha', hab', hts⟩ := hshape t (by simp)
    have htne : t ≠ [] := by
      rw [hts]
      exact tokenCore_ne_nil ha'
    have hnocomma : ∀ u ∈ t :: ts, ∀ ch ∈ u, ch ≠ ',' := by
      intro u hu ch hch
      obtain ⟨a2, b2, ha2, hab2, hu2⟩ := hshape u hu
      rw [hu2] at hch
      exact tokenCore_no_comma ha2 hab2 ch hch
    rw [commaJoin_cons]
    simp only [List.drop_succ_cons, List.drop_zero]
    unfold range_to_list
    rw [if_neg (by simp [htne])]
    rw [splitOnChar_commaJoin ts t (hnocomma t (by simp))
      (fun u hu => hnocomma u (by simp [hu]))]
    rw [← hT]
    rw [parseTokens_tokensList xs x x hx0 le_rfl hsort' hgt]
    rw [runList_self]
    rfl

/-- **C2** (confirmed): `range_to_list` is a left inverse of
`list_to_range_notation` on every sorted duplicate-free list of
non-negative integers; the serializer coalesces maximal consecutive runs
into `low-high` tokens; `[]` serializes to the empty string and back, and
`[0,1,2,5,7,8,9]` serializes exactly to `"0-2,5,7-9"` and parses back. -/
theorem C2_range_notation_roundtrip :
    (∀ L : List Int, L.Sorted (· < ·) → (∀ x ∈ L, 0 ≤ x) →
       ( list_to_range_notation L).bind range_to_list = some L) ∧
    list_to_range_notation [] = some [] ∧
    range_to_list [] = some [] ∧
    list_to_range_notation [0, 1, 2, 5, 7, 8, 9] =
      some ('0' :: '-' :: '2' :: ',' :: '5' :: ',' :: '7' :: '-' :: '9' :: []) ∧
    range_to_list ('0' :: '-' :: '2' :: ',' :: '5' :: ',' :: '7' :: '-' :: '9' :: []) =
      some [0, 1, 2, 5, 7, 8, 9] := by
  refine ⟨?_, by decide, by decide, by decide, by decide⟩
  intro L hs hn
  cases L with
  | nil =>
    rw [ltrn_nil]
    decide
  | cons x xs =>
    rw [ltrn_cons hs hn]
    exact range_to_list_serialized hs hn

/-- Witness for C2's universally quantified round trip at `[0,2,3,9]`. -/
theorem C2_witness :
    ([0, 2, 3, 9] : List Int).Sorted (· < ·) ∧
    ( list_to_range_notation [0, 2, 3, 9]).bind range_to_list = some [0, 2, 3, 9] :=
  ⟨by decide, C2_range_notation_roundtrip.1 [0, 2, 3, 9] (by decide) (by decide)⟩
